import Mathlib

/-!
Analog Vibes App — verification of the sync pipeline specification

A shallow embedding, in Lean 4, of the vinyl-collection sync pipeline of the
Analog Vibes App repository:

* the text-cleaning functions `cleanDiscogsMarkup` / `cleanText`
  (src/services/dataTransform.ts),
* the transformation of Discogs releases and master releases into the
  application's `VinylRecord` domain type (`transformDiscogsMasterRelease`,
  `transformDiscogsVinylRelease`, `transformDiscogsToVinylRecord`,
  `validateVinylRecord`, `filterValidRecords`),
* the local cache service (`isCacheValid`, `cacheCollection`,
  `updateCachedRecord`, `addCachedRecord`, `removeCachedRecord`),
* the rate-limited request wrapper of the Discogs service (`makeRequest`,
  built on the p-retry library with retries=3, factor=2, minTimeout=1000 ms,
  maxTimeout=5000 ms),
* the master-data enrichment pass (`enrichWithMasterData`) with its per-run
  master dedup map, modelled with explicit interleaving schedules for the
  in-batch concurrency of `Promise.all`,
* the sync orchestrator (`syncFromDiscogs`, `getVinylRecords`), modelled as a
  pure function of an explicit environment that supplies the outcome of each
  asynchronous operation (connection test, collection fetch, enrichment,
  cache write, fallback cache read, clock readings, random draws).

JavaScript-specific behaviour is modelled explicitly: string truthiness
(the empty string is falsy), `x || y` fallback chains, optional chaining,
and the exact regexes used by the source (`/\s+/g`, the Discogs markup
tags, and `/recorded\s+in\s+(\w+\s+\d{4})/i`).  All definitions are
executable, so concrete runs can be evaluated inside proofs.
-/

namespace AnalogVibes

/-! ## JavaScript string primitives

`Char` helpers modelling the character classes of the JavaScript regexes
used by the source.  `\s` is modelled by its ASCII members plus NBSP (the
remaining rare Unicode space code points are never produced by the code
under verification); `\w` is exactly `[A-Za-z0-9_]`, which coincides with
`Char.isAlphanum` on ASCII. -/

/-- The apostrophe character `'` (written via its code point). -/
def apostropheChar : Char := Char.ofNat 39

/-- The double-quote character. -/
def quoteChar : Char := Char.ofNat 34

/-- JavaScript `\s` (whitespace) on the characters the app manipulates. -/
def jsWhitespaceChar (c : Char) : Bool :=
  c = ' ' || c = '\t' || c = '\n' || c = '\r' ||
  c = Char.ofNat 11 || c = Char.ofNat 12 || c = Char.ofNat 160

/-- JavaScript `\w`: `[A-Za-z0-9_]`. -/
def wordChar (c : Char) : Bool :=
  c.isAlphanum || c = '_'

/-- JavaScript `String.prototype.trim` on a character list. -/
def jsTrimList (s : List Char) : List Char :=
  ((s.dropWhile jsWhitespaceChar).reverse.dropWhile jsWhitespaceChar).reverse

/-- JavaScript `String.prototype.trim`. -/
def jsTrim (s : String) : String :=
  String.mk (jsTrimList s.toList)

/-- `.replace(/\s+/g, ' ')`, structurally: the flag records whether the
scanner is inside a whitespace run (whose first character has already been
replaced by the single space). -/
def collapseWsAux : Bool → List Char → List Char
  | _, [] => []
  | inRun, c :: cs =>
    if jsWhitespaceChar c then
      if inRun then collapseWsAux true cs else ' ' :: collapseWsAux true cs
    else c :: collapseWsAux false cs

/-- `.replace(/\s+/g, ' ')`: every maximal whitespace run becomes one
space. -/
def collapseWsList (s : List Char) : List Char :=
  collapseWsAux false s

/-- String-level `.replace(/\s+/g, ' ')`. -/
def collapseWs (s : String) : String :=
  String.mk (collapseWsList s.toList)

/-- The character class kept by `.replace(/[^\w\s\-.,!?()&"']/g, '')` in
`cleanText`: word characters, whitespace, and `- . , ! ? ( ) & " '`. -/
def keepChar (c : Char) : Bool :=
  wordChar c || jsWhitespaceChar c ||
  c = '-' || c = '.' || c = ',' || c = '!' || c = '?' ||
  c = '(' || c = ')' || c = '&' || c = quoteChar || c = apostropheChar

/-! ## `cleanDiscogsMarkup` (dataTransform.ts)

The source applies, in order, the global regex replacements
`[l=…]→…`, `[a=…]→…`, `[r=…]→…`, `[m=…]→…`, `[\w+=…]→…`, `[]→''`.
Each tag body is `([^\]]+)`, so matching is deterministic (the greedy body
run cannot cross the required closing bracket), and, as with JavaScript
`String.replace` with a global regex, the output of a replacement is not
rescanned: scanning continues after the match in the input. -/

/-- Match `([^\]]+)\]` at the head of `s`; return the captured body and the
remainder after the closing bracket. -/
def tagBody (s : List Char) : Option (List Char × List Char) :=
  let grp := s.takeWhile (fun c => c ≠ ']')
  if grp.isEmpty then none
  else
    match s.drop grp.length with
    | ']' :: rest => some (grp, rest)
    | _ => none

/-- One global replacement pass `/\[t=([^\]]+)\]/g → '$1'`, with fuel
(`fuel ≥ length` at every call from the wrapper, so the fuel-0 case is
never reached). -/
def replaceTagAux (t : Char) : Nat → List Char → List Char
  | 0, s => s
  | _ + 1, [] => []
  | fuel + 1, c :: cs =>
    if c = '[' then
      match cs with
      | c2 :: '=' :: rest =>
        if c2 = t then
          match tagBody rest with
          | some (grp, rem) => grp ++ replaceTagAux t fuel rem
          | none => c :: replaceTagAux t fuel cs
        else c :: replaceTagAux t fuel cs
      | _ => c :: replaceTagAux t fuel cs
    else c :: replaceTagAux t fuel cs

/-- `/\[t=([^\]]+)\]/g → '$1'` on a character list. -/
def replaceTag (t : Char) (s : List Char) : List Char :=
  replaceTagAux t s.length s

/-- Match `\w+=([^\]]+)\]` just after an opening bracket. -/
def genericTagMatch (s : List Char) : Option (List Char × List Char) :=
  let w := s.takeWhile wordChar
  if w.isEmpty then none
  else
    match s.drop w.length with
    | '=' :: rest => tagBody rest
    | _ => none

/-- One global replacement pass `/\[\w+=([^\]]+)\]/g → '$1'`, with fuel. -/
def replaceGenericTagAux : Nat → List Char → List Char
  | 0, s => s
  | _ + 1, [] => []
  | fuel + 1, c :: cs =>
    if c = '[' then
      match genericTagMatch cs with
      | some (grp, rem) => grp ++ replaceGenericTagAux fuel rem
      | none => c :: replaceGenericTagAux fuel cs
    else c :: replaceGenericTagAux fuel cs

/-- `/\[\w+=([^\]]+)\]/g → '$1'` on a character list. -/
def replaceGenericTag (s : List Char) : List Char :=
  replaceGenericTagAux s.length s

/-- `.replace(/\[\]/g, '')`, with fuel. -/
def removeEmptyBracketsAux : Nat → List Char → List Char
  | 0, s => s
  | _ + 1, [] => []
  | fuel + 1, c :: cs =>
    if c = '[' then
      match cs with
      | ']' :: rest => removeEmptyBracketsAux fuel rest
      | _ => c :: removeEmptyBracketsAux fuel cs
    else c :: removeEmptyBracketsAux fuel cs

/-- `.replace(/\[\]/g, '')` on a character list. -/
def removeEmptyBrackets (s : List Char) : List Char :=
  removeEmptyBracketsAux s.length s

/-- The six replacement passes of `cleanDiscogsMarkup`, in source order. -/
def cleanDiscogsMarkupList (s : List Char) : List Char :=
  removeEmptyBrackets
    (replaceGenericTag
      (replaceTag 'm' (replaceTag 'r' (replaceTag 'a' (replaceTag 'l' s)))))

/-- `cleanDiscogsMarkup` (dataTransform.ts): `if (!text) return ''`, then the
six global regex replacements. -/
def cleanDiscogsMarkup (text : String) : String :=
  if text = "" then "" else String.mk (cleanDiscogsMarkupList text.toList)

/-- `cleanText` (dataTransform.ts):
`cleanDiscogsMarkup(text).trim().replace(/\s+/g,' ')
  .replace(/[^\w\s\-.,!?()&"']/g, '').substring(0, 1000)`. -/
def cleanText (text : String) : String :=
  if text = "" then ""
  else
    String.mk
      (((collapseWsList (jsTrimList (cleanDiscogsMarkup text).toList)).filter
          keepChar).take 1000)

/-! ## Domain data model (src/data/vinylRecords.ts)

TypeScript optional fields become `Option`; fields the source never reads
in the verified code paths are omitted from the Discogs payload records
(they are opaque strings the transforms ignore). -/

/-- A track of a pressing. -/
structure Track where
  number : Nat
  title : String
  duration : String
  deriving DecidableEq, Repr

/-- Master release: original album information (shared across pressings). -/
structure MasterRelease where
  id : String
  title : String
  artist : String
  genres : List String
  description : String
  producer : Option String
  recordingDate : Option String
  deriving DecidableEq, Repr

/-- Vinyl release: the user's specific pressing. -/
structure VinylRelease where
  id : String
  releaseDate : String
  label : String
  catalogNumber : String
  coverUrl : String
  tracks : List Track
  masterId : String
  deriving DecidableEq, Repr

/-- Combined record consumed by the UI (`VinylRecord`). -/
structure VinylRecord where
  id : String
  title : String
  artist : String
  year : String
  label : String
  genres : List String
  catalogNumber : String
  coverUrl : String
  tracks : List Track
  description : String
  producer : Option String
  recordingDate : Option String
  releaseDate : String
  internalMasterRelease : Option MasterRelease
  internalVinylRelease : Option VinylRelease
  deriving DecidableEq, Repr

/-! ## Discogs payloads (discogsService.ts) -/

/-- An artist credit (`{name, id}`). -/
structure DiscogsArtist where
  name : String
  id : Int
  deriving DecidableEq, Repr

/-- An extra-artist credit (`{name, role, id}`). -/
structure DiscogsCredit where
  name : String
  role : String
  id : Int
  deriving DecidableEq, Repr

/-- A label credit (`{name, catno}`; the extra fields of
`basic_information.labels` are never read by the transforms). -/
structure DiscogsLabel where
  name : String
  catno : String
  deriving DecidableEq, Repr

/-- An image entry. -/
structure DiscogsImage where
  type : String
  uri : String
  uri150 : String
  uri500 : String
  deriving DecidableEq, Repr

/-- A raw tracklist entry. -/
structure DiscogsTrack where
  position : String
  title : String
  duration : String
  deriving DecidableEq, Repr

/-- A format entry (`{name, qty, descriptions?}`). -/
structure DiscogsFormat where
  name : String
  qty : String
  descriptions : Option (List String)
  deriving DecidableEq, Repr

/-- `basic_information` of a collection release. -/
structure DiscogsBasicInformation where
  id : Int
  title : String
  year : Int
  master_id : Option Int
  master_url : Option String
  resource_url : String
  thumb : String
  cover_image : String
  formats : List DiscogsFormat
  labels : List DiscogsLabel
  artists : List DiscogsArtist
  genres : List String
  styles : Option (List String)
  deriving DecidableEq, Repr

/-- A Discogs release (collection item or detailed release).  `country` is
accessed by the transforms through an `any` cast and is included here. -/
structure DiscogsRelease where
  id : Int
  title : String
  artists : List DiscogsArtist
  year : Option Int
  master_year : Option Int
  labels : Option (List DiscogsLabel)
  genres : Option (List String)
  styles : Option (List String)
  images : Option (List DiscogsImage)
  tracklist : Option (List DiscogsTrack)
  master_id : Option Int
  master_url : Option String
  notes : Option String
  extraartists : Option (List DiscogsCredit)
  country : Option String
  basic_information : Option DiscogsBasicInformation
  deriving DecidableEq, Repr

/-- A Discogs master release. -/
structure DiscogsMasterRelease where
  id : Int
  title : String
  year : Int
  artists : List DiscogsArtist
  genres : Option (List String)
  styles : Option (List String)
  notes : Option String
  data_quality : Option String
  extraartists : Option (List DiscogsCredit)
  deriving DecidableEq, Repr

/-! ## JavaScript truthiness helpers -/

/-- `a || b` for an optional number against a default: a present non-zero
number is truthy. -/
def jsOrInt (a : Option Int) (b : Int) : Int :=
  match a with
  | some x => if x ≠ 0 then x else b
  | none => b

/-- `a || b` where both sides are optional numbers (`0` and `undefined` are
falsy; a falsy left-hand side yields `b` unchanged, even if `b` is `0`). -/
def jsOrIntOpt (a b : Option Int) : Option Int :=
  match a with
  | some x => if x ≠ 0 then some x else b
  | none => b

/-- `a || b` for an optional string against a default (`""` is falsy). -/
def jsOrStr (a : Option String) (b : String) : String :=
  match a with
  | some s => if s ≠ "" then s else b
  | none => b

/-- `a || b` for two strings. -/
def jsOrStr2 (a b : String) : String :=
  if a ≠ "" then a else b

/-- Truthiness of an optional string. -/
def strTruthy (a : Option String) : Bool :=
  match a with
  | some s => s ≠ ""
  | none => false

/-- Truthiness of an optional number. -/
def intTruthy (a : Option Int) : Bool :=
  match a with
  | some x => x ≠ 0
  | none => false

/-- Case-insensitive-substring helper: does `needle` occur in `hay`
(both already lower-cased by the caller where required)? -/
def startsWithList : List Char → List Char → Bool
  | [], _ => true
  | _ :: _, [] => false
  | n :: ns, h :: hs => n = h && startsWithList ns hs

/-- `hay.includes(needle)` on character lists. -/
def isInfixList (needle : List Char) : List Char → Bool
  | [] => needle.isEmpty
  | c :: cs => startsWithList needle (c :: cs) || isInfixList needle cs

/-- `hay.includes(needle)` on strings. -/
def strIncludes (hay needle : String) : Bool :=
  isInfixList needle.toList hay.toList

/-! ## The `recorded in` regex of `extractRecordingDate`

`/recorded\s+in\s+(\w+\s+\d{4})/i`.  Every quantified atom is followed by a
disjoint atom (`\s` vs. literals/`\w`/`\d`), so greedy matching is
deterministic and no backtracking is required.  The scan tries each start
position from the left, as the JavaScript engine does. -/

/-- Case-insensitive literal match; returns the remainder. -/
def matchLitCi : List Char → List Char → Option (List Char)
  | [], s => some s
  | _ :: _, [] => none
  | p :: ps, c :: cs => if c.toLower = p then matchLitCi ps cs else none

/-- `\s+`: at least one whitespace character; returns (run, remainder). -/
def matchWsPlus : List Char → Option (List Char × List Char)
  | [] => none
  | c :: cs =>
    if jsWhitespaceChar c then
      some (c :: cs.takeWhile jsWhitespaceChar, cs.dropWhile jsWhitespaceChar)
    else none

/-- `\w+`: at least one word character; returns (run, remainder). -/
def matchWordPlus : List Char → Option (List Char × List Char)
  | [] => none
  | c :: cs =>
    if wordChar c then some (c :: cs.takeWhile wordChar, cs.dropWhile wordChar)
    else none

/-- `\d{4}`: exactly four digits; returns (digits, remainder). -/
def matchDigits4 (s : List Char) : Option (List Char × List Char) :=
  match s with
  | d1 :: d2 :: d3 :: d4 :: rest =>
    if d1.isDigit && d2.isDigit && d3.isDigit && d4.isDigit then
      some ([d1, d2, d3, d4], rest)
    else none
  | _ => none

/-- Try the whole pattern at the current position; returns the capture
group `(\w+\s+\d{4})` on success. -/
def tryRecordedAt (s : List Char) : Option (List Char) :=
  (matchLitCi "recorded".toList s).bind fun r1 =>
  (matchWsPlus r1).bind fun ws1 =>
  (matchLitCi "in".toList ws1.2).bind fun r2 =>
  (matchWsPlus r2).bind fun ws2 =>
  (matchWordPlus ws2.2).bind fun w =>
  (matchWsPlus w.2).bind fun ws3 =>
  (matchDigits4 ws3.2).map fun d =>
  w.1 ++ ws3.1 ++ d.1

/-- Left-to-right scan of the subject string. -/
def searchRecordedIn : List Char → Option (List Char)
  | [] => none
  | c :: cs =>
    match tryRecordedAt (c :: cs) with
    | some grp => some grp
    | none => searchRecordedIn cs

/-! ## dataTransform.ts -/

/-- `formatDuration`: `MM:SS` with the seconds padded to two digits. -/
def formatDuration (seconds : Nat) : String :=
  let minutes := seconds / 60
  let remainingSeconds := seconds % 60
  let padded := if remainingSeconds < 10 then "0" ++ toString remainingSeconds
                else toString remainingSeconds
  s!"{minutes}:" ++ padded

/-- Ambient JavaScript effects used by the transforms: the clock reading
used for generated ids and the `Math.random()` draws.
`randTrackDur k` models `Math.floor(Math.random() * 361)` for the random
duration of tracklist entry `k`; `randPlaceholderDur i` the draw for the
`i`-th synthesized placeholder track; `randTrackExtra` the draw
`Math.floor(Math.random() * 3)` for the placeholder track count. -/
structure JsEnv where
  now : Int
  randTrackDur : Nat → Fin 361
  randPlaceholderDur : Nat → Fin 361
  randTrackExtra : Fin 3

/-- `getRandomDuration`: `Math.floor(Math.random() * 361) + 150`. -/
def getRandomDuration (draw : Fin 361) : Nat :=
  draw.val + 150

/-- `extractRecordingDate` (dataTransform.ts): a `recorded in <word> <4
digits>` capture from the markup-cleaned notes, else the release's own
top-level `year`, else nothing. -/
def extractRecordingDate (release : DiscogsRelease) : Option String :=
  let fromNotes : Option String :=
    match release.notes with
    | some notes =>
      if notes ≠ "" then
        match searchRecordedIn (cleanDiscogsMarkup notes).toList with
        | some grp => some (String.mk grp)
        | none => none
      else none
    | none => none
  match fromNotes with
  | some d => some d
  | none =>
    match release.year with
    | some y => if y ≠ 0 then some (toString y) else none
    | none => none

/-- `extractProducer` (dataTransform.ts). -/
def extractProducer (release : DiscogsRelease) : Option String :=
  match release.extraartists with
  | none => none
  | some credits =>
    (credits.find? fun a => a.role ≠ "" && strIncludes a.role.toLower "producer").map
      (·.name)

/-- `createDescription` (dataTransform.ts).  `releaseData` is
`basic_information || release`; fields it lacks on the plain release
(`formats`) behave as absent. -/
def createDescription (release : DiscogsRelease) : String :=
  let formats : List DiscogsFormat :=
    match release.basic_information with
    | some b => b.formats
    | none => []
  let styles : List String :=
    match release.basic_information with
    | some b => b.styles.getD []
    | none => release.styles.getD []
  let artists : List DiscogsArtist :=
    match release.basic_information with
    | some b => b.artists
    | none => release.artists
  let yearOpt : Option Int :=
    match release.basic_information with
    | some b => some b.year
    | none => release.year
  let p1 : List String :=
    match formats with
    | [] => []
    | format :: _ =>
      let formatText := jsOrStr2 format.name "Vinyl"
      let descriptions :=
        match format.descriptions with
        | some ds => String.intercalate ", " ds
        | none => ""
      [formatText ++ (if descriptions ≠ "" then " (" ++ descriptions ++ ")" else "")]
  let p2 : List String :=
    if styles.length > 0 then ["Style: " ++ String.intercalate ", " styles] else []
  let p3 : List String :=
    match release.country with
    | some c => if c ≠ "" then ["Released in " ++ c] else []
    | none => []
  let p4 : List String :=
    match release.notes with
    | some n => if n ≠ "" then [cleanText n] else []
    | none => []
  let parts := p1 ++ p2 ++ p3 ++ p4
  let parts :=
    if parts.length = 0 then
      let artist := jsOrStr ((artists.head?).map (·.name)) "Unknown Artist"
      let year :=
        match yearOpt with
        | some y => if y ≠ 0 then toString y else "Unknown Year"
        | none => "Unknown Year"
      [s!"A classic release by {artist} from {year}."]
    else parts
  String.intercalate ". " parts ++ "."

/-- `transformDiscogsMasterRelease` (dataTransform.ts). -/
def transformDiscogsMasterRelease (discogsMaster : DiscogsMasterRelease) :
    MasterRelease :=
  let artist :=
    if discogsMaster.artists.length > 0 then
      String.intercalate ", " (discogsMaster.artists.map (·.name))
    else "Unknown Artist"
  let genres := discogsMaster.genres.getD []
  let validGenres :=
    genres.filter fun g => g ≠ "" && jsTrim g ≠ "" && g ≠ "Unknown"
  let masterYear : Option String :=
    if discogsMaster.year > 0 then some (toString discogsMaster.year) else none
  { id := toString discogsMaster.id
    title := jsOrStr2 discogsMaster.title "Unknown Title"
    artist := artist
    genres := if validGenres.length > 0 then validGenres else ["Unknown"]
    description :=
      match discogsMaster.notes with
      | some n =>
        if n ≠ "" then cleanText n
        else "A classic release by " ++ artist ++
          (match masterYear with | some y => s!" from {y}" | none => "") ++ "."
      | none =>
        "A classic release by " ++ artist ++
          (match masterYear with | some y => s!" from {y}" | none => "") ++ "."
    producer :=
      (discogsMaster.extraartists.getD [] |>.find? fun a =>
        a.role ≠ "" && strIncludes a.role.toLower "producer").map (·.name)
    recordingDate := masterYear }

/-- Tracklist transformation of `transformDiscogsVinylRelease`: keep entries
with a truthy trimmed title, numbering by the original index, substituting a
random duration where the entry has none. -/
def buildTracks (env : JsEnv) (tl : List DiscogsTrack) : List Track :=
  (tl.enum.filter fun p => p.2.title ≠ "" && jsTrim p.2.title ≠ "").map fun p =>
    { number := p.1 + 1
      title := jsTrim p.2.title
      duration :=
        if p.2.duration ≠ "" then p.2.duration
        else formatDuration (getRandomDuration (env.randTrackDur p.1)) }

/-- The generic placeholder titles of `transformDiscogsVinylRelease`. -/
def genericTrackNames : List String :=
  ["Opening", "Melody", "Interlude", "Rhythm", "Finale", "Theme", "Variation",
   "Coda"]

/-- Placeholder tracks synthesized when the tracklist is empty:
`4 + Math.floor(Math.random() * 3)` tracks. -/
def placeholderTracks (env : JsEnv) : List Track :=
  let trackCount := 4 + env.randTrackExtra.val
  (List.range trackCount).map fun i0 =>
    let i := i0 + 1
    { number := i
      title :=
        match genericTrackNames.get? (i - 1) with
        | some nm => if nm ≠ "" then nm else s!"Movement {i}"
        | none => s!"Movement {i}"
      duration := formatDuration (getRandomDuration (env.randPlaceholderDur i)) }

/-- `transformDiscogsVinylRelease` (dataTransform.ts). -/
def transformDiscogsVinylRelease (env : JsEnv) (discogsRelease : DiscogsRelease)
    (masterId : String) (index : Nat) : VinylRelease :=
  let rdLabels : List DiscogsLabel :=
    match discogsRelease.basic_information with
    | some b => b.labels
    | none => discogsRelease.labels.getD []
  let label :=
    match rdLabels with
    | [] => "Unknown Label"
    | l :: _ => l.name
  let catalogNumber :=
    match rdLabels with
    | [] => "N/A"
    | l :: _ => jsOrStr2 l.catno "N/A"
  let coverUrl :=
    match discogsRelease.images with
    | some (img0 :: rest) =>
      let primaryImage :=
        match (img0 :: rest).find? (fun img => img.type = "primary") with
        | some p => p
        | none => img0
      jsOrStr2 primaryImage.uri500
        (jsOrStr2 primaryImage.uri (jsOrStr2 primaryImage.uri150 ""))
    | some [] => coverFromBasic discogsRelease
    | none => coverFromBasic discogsRelease
  let coverUrl :=
    if coverUrl = "" then
      let hue := (index * 30) % 360
      s!"https://images.unsplash.com/photo-1571974599782-87624638275d?w=400&h=400&fit=crop&auto=format&q=80&hue={hue}&sat=70"
    else coverUrl
  let tracks :=
    match discogsRelease.tracklist with
    | some tl => if tl.length > 0 then buildTracks env tl else []
    | none => []
  let tracks := if tracks.length = 0 then placeholderTracks env else tracks
  let rdId : Int :=
    match discogsRelease.basic_information with
    | some b => b.id
    | none => discogsRelease.id
  let rdYear : Option Int :=
    match discogsRelease.basic_information with
    | some b => some b.year
    | none => discogsRelease.year
  { id := if rdId ≠ 0 then toString rdId else s!"generated-{env.now}-{index}"
    releaseDate :=
      match rdYear with
      | some y => if y ≠ 0 then toString y else "Unknown"
      | none => "Unknown"
    label := label
    catalogNumber := catalogNumber
    coverUrl := coverUrl
    tracks := tracks
    masterId := masterId }
where
  /-- The `else if` chain over `basic_information.cover_image` / `.thumb`. -/
  coverFromBasic (r : DiscogsRelease) : String :=
    match r.basic_information with
    | some b => if b.cover_image ≠ "" then b.cover_image
                else if b.thumb ≠ "" then b.thumb else ""
    | none => ""

/-- `transformDiscogsToVinylRecord` (dataTransform.ts). -/
def transformDiscogsToVinylRecord (env : JsEnv) (discogsRelease : DiscogsRelease)
    (discogsMaster : Option DiscogsMasterRelease) (index : Nat) : VinylRecord :=
  let masterId :=
    match jsOrIntOpt
        (match discogsRelease.basic_information with
         | some b => b.master_id
         | none => none)
        discogsRelease.master_id with
    | some v => toString v
    | none => "unknown"
  let vinylRelease := transformDiscogsVinylRelease env discogsRelease masterId index
  let masterRelease : MasterRelease :=
    match discogsMaster with
    | some dm => transformDiscogsMasterRelease dm
    | none =>
      let rdArtists :=
        match discogsRelease.basic_information with
        | some b => b.artists
        | none => discogsRelease.artists
      let rdTitle :=
        match discogsRelease.basic_information with
        | some b => b.title
        | none => discogsRelease.title
      let rdGenres : List String :=
        match discogsRelease.basic_information with
        | some b => b.genres
        | none => discogsRelease.genres.getD []
      let artist :=
        if rdArtists.length > 0 then
          String.intercalate ", " (rdArtists.map (·.name))
        else "Unknown Artist"
      let validGenres :=
        rdGenres.filter fun g => g ≠ "" && jsTrim g ≠ "" && g ≠ "Unknown"
      { id := masterId
        title := jsOrStr2 rdTitle "Unknown Title"
        artist := artist
        genres := if validGenres.length > 0 then validGenres else ["Unknown"]
        description := createDescription discogsRelease
        producer := extractProducer discogsRelease
        recordingDate := extractRecordingDate discogsRelease }
  let finalYear :=
    jsOrStr2 (match masterRelease.recordingDate with
              | some d => d
              | none => "")
      (jsOrStr2 vinylRelease.releaseDate "Unknown")
  { id := vinylRelease.id
    title := masterRelease.title
    artist := masterRelease.artist
    year := finalYear
    label := vinylRelease.label
    genres := masterRelease.genres
    catalogNumber := vinylRelease.catalogNumber
    coverUrl := vinylRelease.coverUrl
    tracks := vinylRelease.tracks
    description := masterRelease.description
    producer := masterRelease.producer
    recordingDate := masterRelease.recordingDate
    releaseDate := vinylRelease.releaseDate
    internalMasterRelease := some masterRelease
    internalVinylRelease := some vinylRelease }

/-- `validateVinylRecord` (dataTransform.ts): all required fields truthy,
genre list and track list non-empty. -/
def validateVinylRecord (record : VinylRecord) : Bool :=
  record.id ≠ "" && record.title ≠ "" && record.artist ≠ "" &&
  record.year ≠ "" && record.label ≠ "" && record.genres.length > 0 &&
  record.coverUrl ≠ "" && record.tracks.length > 0

/-- `filterValidRecords` (dataTransform.ts). -/
def filterValidRecords (records : List VinylRecord) : List VinylRecord :=
  records.filter validateVinylRecord

/-! ## cacheService.ts

The persistent store holds two logical keys: the record list
(`vinyl_collection`) and the metadata record (`collection_metadata`).
Storage operations are modelled as pure state transformers; an operation
that throws is an `Except.error` carrying the thrown message and leaves
the store unchanged (the claims under verification do not depend on the
partially-written states a failing `Promise.all` could leave behind). -/

/-- `CacheMetadata`. -/
structure CacheMetadata where
  lastSync : Int
  version : String
  totalRecords : Nat
  syncDuration : Int
  errors : Option (List String)
  deriving DecidableEq, Repr

/-- The two logical keys of the localforage store. -/
structure CacheStore where
  collection : Option (List VinylRecord)
  metadata : Option CacheMetadata
  deriving DecidableEq, Repr

/-- `CACHE_EXPIRY_HOURS * 60 * 60 * 1000`. -/
def cacheMaxAgeMs : Int := 24 * 60 * 60 * 1000

/-- `CacheService.isCacheValid`: metadata exists and its age is below the
TTL. -/
def isCacheValid (now : Int) (store : CacheStore) : Bool :=
  match store.metadata with
  | none => false
  | some metadata => now - metadata.lastSync < cacheMaxAgeMs

/-- `CacheService.getCachedCollection` (`records || null`; a stored empty
array is truthy in JavaScript and is returned as-is). -/
def getCachedCollection (store : CacheStore) : Option (List VinylRecord) :=
  store.collection

/-- `CacheService.cacheCollection`: write records and freshly-built
metadata as one logical unit. -/
def cacheCollection (now : Int) (records : List VinylRecord) (syncDuration : Int)
    (errors : List String) : CacheStore :=
  { collection := some records
    metadata := some
      { lastSync := now
        version := "1.0.0"
        totalRecords := records.length
        syncDuration := syncDuration
        errors := if errors.length > 0 then some errors else none } }

/-- `CacheService.updateCachedRecord`: replace the record with the given id
in place; throws when no collection or no such record exists. -/
def updateCachedRecord (recordId : String) (updatedRecord : VinylRecord)
    (store : CacheStore) : Except String CacheStore :=
  match store.collection with
  | none => .error "No cached collection found"
  | some records =>
    match records.findIdx? (fun r => r.id = recordId) with
    | none => .error s!"Record with ID {recordId} not found in cache"
    | some index =>
      .ok { store with collection := some (records.set index updatedRecord) }

/-- `CacheService.addCachedRecord`: add (or replace in place) a record;
the metadata record count is updated only when metadata already exists. -/
def addCachedRecord (newRecord : VinylRecord) (store : CacheStore) : CacheStore :=
  let records := store.collection.getD []
  let records :=
    match records.findIdx? (fun r => r.id = newRecord.id) with
    | some existingIndex => records.set existingIndex newRecord
    | none => records ++ [newRecord]
  { collection := some records
    metadata :=
      match store.metadata with
      | some metadata => some { metadata with totalRecords := records.length }
      | none => none }

/-- `CacheService.removeCachedRecord`: drop the record with the given id;
throws when no collection or no such record exists; the metadata record
count is updated only when metadata already exists. -/
def removeCachedRecord (recordId : String) (store : CacheStore) :
    Except String CacheStore :=
  match store.collection with
  | none => .error "No cached collection found"
  | some records =>
    let filteredRecords := records.filter (fun r => r.id ≠ recordId)
    if filteredRecords.length = records.length then
      .error s!"Record with ID {recordId} not found in cache"
    else
      .ok
        { collection := some filteredRecords
          metadata :=
            match store.metadata with
            | some metadata =>
              some { metadata with totalRecords := filteredRecords.length }
            | none => none }

/-- The snapshot/metadata consistency predicate of the spec: whenever a
collection snapshot is stored, metadata exists and its record count equals
the snapshot length. -/
def metadataConsistent (store : CacheStore) : Bool :=
  match store.collection, store.metadata with
  | some records, some metadata => metadata.totalRecords = records.length
  | some _, none => false
  | none, _ => true

/-! ## discogsService.ts — `makeRequest` retry behaviour

The response interceptor converts every HTTP error status into a plain
`Error` whose message depends on the status; `makeRequest` then runs the
request under `pRetry` with `retries: 3, factor: 2, minTimeout: 1000,
maxTimeout: 5000`.  p-retry retries every plain `Error` (it aborts early
only for `AbortError`, which this code never throws), waiting
`min(minTimeout * factor^(attempt-1), maxTimeout)` between attempts.
The model takes the outcome of each attempt from an environment function
and returns the final result together with the number of attempts made
and the backoff delays waited. -/

/-- A failed HTTP attempt: an error response with a status (and optional
server message), or a network-level error with its message. -/
inductive DiscogsHttpError where
  | http (status : Nat) (dataMessage : Option String)
  | network (message : String)
  deriving DecidableEq, Repr

/-- The response interceptor's `switch (status)`. -/
def interceptorMessage : DiscogsHttpError → String
  | .http 401 _ => "Invalid Discogs API token. Please check your credentials."
  | .http 403 _ => "Rate limit exceeded. Please wait before making more requests."
  | .http 404 _ => "Resource not found."
  | .http 422 d => "Invalid parameters: " ++ d.getD "Unknown error"
  | .http s d => s!"Discogs API Error: {s} - " ++ d.getD "Unknown error"
  | .network m => m

/-- The p-retry backoff before retrying after failed attempt number
`attemptNumber` (1-based): `min(1000 * 2^(n-1), 5000)`. -/
def pRetryDelay (attemptNumber : Nat) : Nat :=
  min (1000 * 2 ^ (attemptNumber - 1)) 5000

/-- One p-retry run from 0-based attempt `k` with `rem` retries left.
Returns (final result, attempts made, delays waited). -/
def pRetryAux {α : Type} (attempts : Nat → Except DiscogsHttpError α) :
    Nat → Nat → Except String α × Nat × List Nat
  | k, rem =>
    match attempts k with
    | .ok v => (.ok v, 1, [])
    | .error e =>
      match rem with
      | 0 => (.error (interceptorMessage e), 1, [])
      | rem' + 1 =>
        let d := pRetryDelay (k + 1)
        let rest := pRetryAux attempts (k + 1) rem'
        (rest.1, rest.2.1 + 1, d :: rest.2.2)

/-- `DiscogsService.makeRequest`: the rate-limiting queue does not change
the retry behaviour of a single request, so the model is the p-retry run
with `retries: 3`. -/
def makeRequest {α : Type} (attempts : Nat → Except DiscogsHttpError α) :
    Except String α × Nat × List Nat :=
  pRetryAux attempts 0 3

/-- Result of `makeRequest`. -/
def requestResult {α : Type} (attempts : Nat → Except DiscogsHttpError α) :
    Except String α := (makeRequest attempts).1

/-- Number of attempts a `makeRequest` run performs. -/
def requestAttempts {α : Type} (attempts : Nat → Except DiscogsHttpError α) :
    Nat := (makeRequest attempts).2.1

/-- Backoff delays a `makeRequest` run waits. -/
def requestDelays {α : Type} (attempts : Nat → Except DiscogsHttpError α) :
    List Nat := (makeRequest attempts).2.2

/-- Whether an attempt outcome is a success. -/
def attemptOk {α : Type} : Except DiscogsHttpError α → Bool
  | .ok _ => true
  | .error _ => false

/-! ## discogsService.ts — `enrichWithMasterData`

The enrichment pass walks the releases in batches of 10.  Within a batch
every item runs concurrently under `Promise.all`: an item awaits its
detail fetch, then synchronously consults the per-run `masterCache` map
and, on a miss, starts `getMasterRelease` and writes the map entry only
when that fetch resolves.  Because the map read (the *check*) and the map
write (the *store*) of different items interleave arbitrarily, a batch
execution is modelled by a schedule: a list of `check i` / `store i`
events, one pair per item, with each item's check before its store.
Batches are sequential: all events of a batch complete before the next
batch starts.

The model records the identifiers passed to `getMasterRelease` (the `calls`
trace) and the dedup-map contents; the enriched output value itself is
schedule-independent (an item ends up with master data exactly when its
master id is truthy and that master's fetch succeeds) and is not needed by
the claims. -/

/-- The master id used by the enrichment pass:
`basic_information?.master_id || release.master_id`, then the truthy guard
`if (masterId)`. -/
def truthyMasterId (release : DiscogsRelease) : Option Int :=
  match jsOrIntOpt
      (match release.basic_information with
       | some b => b.master_id
       | none => none)
      release.master_id with
  | some v => if v ≠ 0 then some v else none
  | none => none

/-- A primitive event of a batch execution: item `i` consults the dedup map
(`check`), or item `i`'s master fetch resolves (`store`). -/
inductive BatchEvent where
  | check (i : Nat)
  | store (i : Nat)
  deriving DecidableEq, Repr

/-- State threaded through an enrichment run: the dedup-map keys, the items
of the current batch whose master fetch succeeded and will populate the map
at their `store` event, and the trace of `getMasterRelease` invocations. -/
structure EnrichState where
  cache : List Int
  pending : List Nat
  calls : List Int
  deriving DecidableEq, Repr

/-- The (truthy) master id of batch item `i`. -/
def batchMid (mids : List (Option Int)) (i : Nat) : Option Int :=
  (mids.get? i).getD none

/-- Run the events of one batch.  `mids` are the (truthy) master ids of the
batch items; `fetchOk m` tells whether `getMasterRelease m` resolves. -/
def runBatchEvents (mids : List (Option Int)) (fetchOk : Int → Bool) :
    List BatchEvent → EnrichState → EnrichState
  | [], st => st
  | BatchEvent.check i :: es, st =>
    match batchMid mids i with
    | none => runBatchEvents mids fetchOk es st
    | some m =>
      if m ∈ st.cache then runBatchEvents mids fetchOk es st
      else
        runBatchEvents mids fetchOk es
          { st with
            calls := st.calls ++ [m]
            pending := if fetchOk m then st.pending ++ [i] else st.pending }
  | BatchEvent.store i :: es, st =>
    if i ∈ st.pending then
      match batchMid mids i with
      | some m => runBatchEvents mids fetchOk es { st with cache := st.cache ++ [m] }
      | none => runBatchEvents mids fetchOk es st
    else runBatchEvents mids fetchOk es st

/-- Split a list into chunks of `n` (the batching `slice(i, i + batchSize)`
loop with `batchSize = 10`). -/
def chunksAux {α : Type} (n : Nat) : Nat → List α → List (List α)
  | 0, _ => []
  | _, [] => []
  | fuel + 1, l => l.take n :: chunksAux n fuel (l.drop n)

/-- `chunksOf n l`: the batches of `l`. -/
def chunksOf {α : Type} (n : Nat) (l : List α) : List (List α) :=
  chunksAux n l.length l

/-- Run the batches sequentially, one schedule per batch; `pending` is
per-batch state and is reset at each batch boundary. -/
def runBatches (fetchOk : Int → Bool) :
    List (List (Option Int)) → List (List BatchEvent) → List Int × List Int →
    List Int × List Int
  | [], _, acc => acc
  | _ :: _, [], acc => acc
  | b :: bs, es :: ess, (cache, calls) =>
    let st := runBatchEvents b fetchOk es { cache := cache, pending := [], calls := calls }
    runBatches fetchOk bs ess (st.cache, st.calls)

/-- The trace of master ids passed to `getMasterRelease` during one
`enrichWithMasterData` run over `releases`, under the batch schedules
`scheds`. -/
def enrichMasterCalls (releases : List DiscogsRelease)
    (scheds : List (List BatchEvent)) (fetchOk : Int → Bool) : List Int :=
  (runBatches fetchOk ((chunksOf 10 releases).map (·.map truthyMasterId)) scheds
    ([], [])).2

/-- A schedule is valid for a batch of `n` items when it consists of exactly
one `check` and one `store` event per item, with each item's check before
its store (the program order of one item's async function). -/
def validSchedule (n : Nat) (es : List BatchEvent) : Prop :=
  es.Perm ((List.range n).map BatchEvent.check ++ (List.range n).map BatchEvent.store)
    ∧ ∀ i < n, [BatchEvent.check i, BatchEvent.store i].Sublist es

instance (n : Nat) (es : List BatchEvent) : Decidable (validSchedule n es) := by
  unfold validSchedule; infer_instance

/-! ## syncService.ts — the orchestrator

`syncFromDiscogs` runs connect → fetch → enrich → transform → cache inside
one `try`; any thrown error is caught, appended to the error list, and
answered with the cached collection (if non-empty) as a degraded result,
else with an empty result.  The model is a pure function of a `SyncEnv`
supplying the outcome of every asynchronous operation.  Its output records,
besides the returned records and `SyncResult`, the emitted progress events,
a coarse log of remote operations started, what was written to the cache,
and which error message (if any) was thrown and caught — observables the
claims speak about. -/

/-- `SyncResult` (syncService.ts). -/
structure SyncResult where
  success : Bool
  recordsProcessed : Nat
  errors : List String
  duration : Int
  fromCache : Bool
  deriving DecidableEq, Repr

/-- The phases of `SyncProgress`. -/
inductive SyncPhase where
  | connecting | fetching | transforming | caching | complete | error
  deriving DecidableEq, Repr

/-- `SyncProgress` (cacheService.ts); `currentPage`/`totalPages` are never
set by the verified code paths and are omitted. -/
structure SyncProgress where
  phase : SyncPhase
  progress : Nat
  message : String
  recordsProcessed : Option Nat
  totalRecords : Option Nat
  deriving DecidableEq, Repr

/-- Result of `DiscogsService.testConnection`. -/
structure ConnTest where
  success : Bool
  message : String
  username : Option String
  deriving DecidableEq, Repr

/-- The environment of one `syncFromDiscogs` run: the outcome of each
asynchronous operation, clock readings, and the per-record ambient
JavaScript effects used by the transforms. -/
structure SyncEnv where
  connTest : ConnTest
  fetched : Except String (List DiscogsRelease)
  enrich : List DiscogsRelease →
    Except String (List (DiscogsRelease × Option DiscogsMasterRelease))
  cacheWriteOk : Bool
  nowAtWrite : Int
  durAtWrite : Int
  durAtCatch : Int
  fallbackCache : Option (List VinylRecord)
  tenv : Nat → JsEnv

/-- Observable outcome of one `syncFromDiscogs` / `getVinylRecords` call. -/
structure SyncOutput where
  records : List VinylRecord
  result : SyncResult
  progress : List SyncProgress
  remoteCalls : List String
  cacheWritten : Option (List VinylRecord)
  thrown : Option String
  dropped : Nat
  deriving Repr

/-- The `catch` block of `syncFromDiscogs`: push the thrown message, emit
the error progress event, and fall back to the cached collection when it
has at least one record. -/
def syncCatch (env : SyncEnv) (pAcc : List SyncProgress) (rcAcc : List String)
    (errsSoFar : List String) (errorMessage : String) (dropped : Nat) :
    SyncOutput :=
  let errors := errsSoFar ++ [errorMessage]
  let pe := pAcc ++
    [{ phase := .error, progress := 0, message := s!"Sync failed: {errorMessage}",
       recordsProcessed := none, totalRecords := none }]
  let emptyResult : SyncOutput :=
    { records := []
      result :=
        { success := false, recordsProcessed := 0, errors := errors,
          duration := env.durAtCatch, fromCache := false }
      progress := pe, remoteCalls := rcAcc, cacheWritten := none,
      thrown := some errorMessage, dropped := dropped }
  match env.fallbackCache with
  | some cachedRecords =>
    if cachedRecords.length > 0 then
      { records := cachedRecords
        result :=
          { success := false, recordsProcessed := cachedRecords.length,
            errors := errors, duration := env.durAtCatch, fromCache := true }
        progress := pe, remoteCalls := rcAcc, cacheWritten := none,
        thrown := some errorMessage, dropped := dropped }
    else emptyResult
  | none => emptyResult

/-- The error-list entry counting records dropped by validation. -/
def invalidRecordsMsg (invalidCount : Nat) : String :=
  s!"{invalidCount} records were invalid and filtered out"

/-- The transform → validate → cache → complete tail of the `try` block. -/
def syncTransformTail (env : SyncEnv) (pAcc : List SyncProgress)
    (rcAcc : List String)
    (enrichedReleases : List (DiscogsRelease × Option DiscogsMasterRelease)) :
    SyncOutput :=
  let p6 := pAcc ++
    [{ phase := .transforming, progress := 70,
       message := "Converting releases to app format...",
       recordsProcessed := none, totalRecords := none }]
  let transformedRecords :=
    enrichedReleases.enum.map fun p =>
      transformDiscogsToVinylRecord (env.tenv p.1) p.2.1 p.2.2 p.1
  let validRecords := filterValidRecords transformedRecords
  let invalidCount := transformedRecords.length - validRecords.length
  let errors :=
    if validRecords.length ≠ transformedRecords.length then
      [invalidRecordsMsg invalidCount]
    else []
  let vn := validRecords.length
  let p7 := p6 ++
    [{ phase := .transforming, progress := 80,
       message := s!"Processed {vn} valid records",
       recordsProcessed := none, totalRecords := none }]
  let p8 := p7 ++
    [{ phase := .caching, progress := 90, message := "Saving to local cache...",
       recordsProcessed := none, totalRecords := none }]
  if env.cacheWriteOk then
    let p9 := p8 ++
      [{ phase := .complete, progress := 100,
         message := s!"Sync complete! {vn} records cached",
         recordsProcessed := some vn, totalRecords := some vn }]
    { records := validRecords
      result :=
        { success := true, recordsProcessed := vn, errors := errors,
          duration := env.durAtWrite, fromCache := false }
      progress := p9, remoteCalls := rcAcc,
      cacheWritten := some validRecords, thrown := none,
      dropped := invalidCount }
  else
    syncCatch env p8 rcAcc errors "Failed to cache collection data" invalidCount

/-- `SyncService.syncFromDiscogs` on a fresh, uncancelled service instance
(the in-flight and cancellation flags are both false). -/
def syncFromDiscogs (env : SyncEnv) (skipMasterData : Bool) : SyncOutput :=
  let p0 : List SyncProgress :=
    [{ phase := .connecting, progress := 0,
       message := "Connecting to Discogs API...",
       recordsProcessed := none, totalRecords := none }]
  let rc0 := ["testConnection"]
  if env.connTest.success = false then
    syncCatch env p0 rc0 [] env.connTest.message 0
  else
    let uname := jsOrStr env.connTest.username "Unknown User"
    let p1 := p0 ++
      [{ phase := .connecting, progress := 10, message := s!"Connected as {uname}",
         recordsProcessed := none, totalRecords := none }]
    let p2 := p1 ++
      [{ phase := .fetching, progress := 20,
         message := "Fetching collection from Discogs...",
         recordsProcessed := none, totalRecords := none }]
    let rc1 := rc0 ++ ["getAllUserCollection"]
    match env.fetched with
    | .error e => syncCatch env p2 rc1 [] e 0
    | .ok discogsReleases =>
      if discogsReleases.length = 0 then
        syncCatch env p2 rc1 [] "No releases found in your Discogs collection" 0
      else
        let n := discogsReleases.length
        let p3 := p2 ++
          [{ phase := .fetching, progress := 40, message := s!"Fetched {n} releases",
             recordsProcessed := none, totalRecords := none }]
        if skipMasterData then
          let p4 := p3 ++
            [{ phase := .fetching, progress := 60,
               message := "Skipping master data for faster sync...",
               recordsProcessed := none, totalRecords := none }]
          let enrichedReleases := discogsReleases.map fun r =>
            (r, (none : Option DiscogsMasterRelease))
          syncTransformTail env p4 rc1 enrichedReleases
        else
          let p4 := p3 ++
            [{ phase := .fetching, progress := 50,
               message := "Fetching master release data...",
               recordsProcessed := none, totalRecords := none }]
          let rc2 := rc1 ++ ["enrichWithMasterData"]
          match env.enrich discogsReleases with
          | .error e => syncCatch env p4 rc2 [] e 0
          | .ok enrichedReleases =>
            let en := enrichedReleases.length
            let p5 := p4 ++
              [{ phase := .fetching, progress := 60,
                 message := s!"Enriched {en} releases with master data",
                 recordsProcessed := none, totalRecords := none }]
            syncTransformTail env p5 rc2 enrichedReleases

/-- The environment of one `getVinylRecords` call: the clock, the cache
store consulted on the cache-check path, and the sync environment used if
the call falls through to `syncFromDiscogs`. -/
structure GetRecordsEnv where
  now : Int
  store : CacheStore
  sync : SyncEnv

/-- `SyncService.getVinylRecords`. -/
def getVinylRecords (forceRefresh : Bool) (skipMasterData : Bool)
    (env : GetRecordsEnv) : SyncOutput :=
  if forceRefresh = false then
    if isCacheValid env.now env.store then
      match getCachedCollection env.store with
      | some cachedRecords =>
        if cachedRecords.length > 0 then
          let k := cachedRecords.length
          { records := cachedRecords
            result :=
              { success := true, recordsProcessed := k, errors := [],
                duration := 0, fromCache := true }
            progress :=
              [{ phase := .complete, progress := 100,
                 message := s!"Loaded {k} records from cache",
                 recordsProcessed := some k, totalRecords := some k }]
            remoteCalls := [], cacheWritten := none, thrown := none,
            dropped := 0 }
        else syncFromDiscogs env.sync skipMasterData
      | none => syncFromDiscogs env.sync skipMasterData
    else syncFromDiscogs env.sync skipMasterData
  else syncFromDiscogs env.sync skipMasterData

/-! ## General-purpose lemmas -/

/-- `Nat.toDigitsCore` strictly lengthens its accumulator. -/
theorem toDigitsCore_length_lt (b : Nat) :
    ∀ (fuel n : Nat) (ds : List Char),
      ds.length < (Nat.toDigitsCore b (fuel + 1) n ds).length := by
  intro fuel
  induction fuel with
  | zero =>
    intro n ds
    simp only [Nat.toDigitsCore]
    split <;> simp
  | succ fuel ih =>
    intro n ds
    simp only [Nat.toDigitsCore]
    split
    · simp
    · exact Nat.lt_trans (by simp) (ih _ (Nat.digitChar (n % b) :: ds))

/-- The decimal rendering of a natural number is never the empty string. -/
theorem natRepr_ne_empty (n : Nat) : Nat.repr n ≠ "" := by
  intro h
  have hlen := toDigitsCore_length_lt 10 n n []
  have : (Nat.toDigits 10 n) = [] := by
    have := congrArg String.data h
    simpa [Nat.repr, List.asString] using this
  rw [Nat.toDigits] at this
  simp [this] at hlen

/-- The decimal rendering of an integer is never the empty string. -/
theorem intToString_ne_empty (y : Int) : toString y ≠ "" := by
  cases y with
  | ofNat m => exact natRepr_ne_empty m
  | negSucc m =>
    intro h
    have := congrArg String.data h
    simp [toString, Int.repr, String.append] at this

/-! ## Concrete fixtures used by witnesses and counterexamples -/

/-- A fixed ambient-effects environment for concrete runs. -/
def cJsEnv : JsEnv :=
  { now := 0, randTrackDur := fun _ => 0, randPlaceholderDur := fun _ => 0,
    randTrackExtra := 0 }

/-- A minimal concrete Discogs release. -/
def cRel : DiscogsRelease :=
  { id := 7, title := "T", artists := [{ name := "A", id := 1 }],
    year := some 1970, master_year := none, labels := none, genres := none,
    styles := none, images := none, tracklist := none, master_id := none,
    master_url := none, notes := none, extraartists := none, country := none,
    basic_information := none }

/-- A concrete valid `VinylRecord`. -/
def cRec : VinylRecord :=
  { id := "1", title := "T", artist := "A", year := "1970", label := "L",
    genres := ["Jazz"], catalogNumber := "C1", coverUrl := "u",
    tracks := [{ number := 1, title := "t", duration := "3:00" }],
    description := "d", producer := none, recordingDate := none,
    releaseDate := "1970", internalMasterRelease := none,
    internalVinylRelease := none }

/-- A sync environment in which every phase succeeds. -/
def cSyncEnv : SyncEnv :=
  { connTest := { success := true, message := "", username := some "u" },
    fetched := .ok [cRel],
    enrich := fun rs => .ok (rs.map fun r => (r, none)),
    cacheWriteOk := true, nowAtWrite := 100, durAtWrite := 42, durAtCatch := 13,
    fallbackCache := some [cRec], tenv := fun _ => cJsEnv }

/-- The success environment, but with an empty collection fetch. -/
def cSyncEnvEmptyFetch : SyncEnv :=
  { cSyncEnv with fetched := .ok [] }

/-- The success environment, but with a failing connection test. -/
def cSyncEnvConnFail : SyncEnv :=
  { cSyncEnv with
    connTest := { success := false, message := "no conn", username := none } }

/-- A cache store holding one record with matching metadata. -/
def cStore : CacheStore :=
  { collection := some [cRec]
    metadata := some
      { lastSync := 0, version := "1.0.0", totalRecords := 1, syncDuration := 1,
        errors := none } }

/-- A `getVinylRecords` environment with a fresh, valid, non-empty cache. -/
def cGetEnv : GetRecordsEnv :=
  { now := 5, store := cStore, sync := cSyncEnv }

/-! ## C1 — cache-hit path of `getVinylRecords` -/

/-- **C1.** With `forceRefresh = false`, a valid cache (metadata present and
younger than the TTL) and a non-empty cached record list, `getVinylRecords`
returns exactly the cached records together with a `SyncResult` of
`success = true, fromCache = true, duration = 0` and an empty error list,
and starts no remote operation at all. -/
theorem C1_cache_hit (skipMasterData : Bool) (env : GetRecordsEnv)
    (l : List VinylRecord)
    (hvalid : isCacheValid env.now env.store = true)
    (hcoll : env.store.collection = some l)
    (hne : 0 < l.length) :
    (getVinylRecords false skipMasterData env).records = l ∧
    (getVinylRecords false skipMasterData env).result =
      { success := true, recordsProcessed := l.length, errors := [],
        duration := 0, fromCache := true } ∧
    (getVinylRecords false skipMasterData env).remoteCalls = [] := by
  unfold getVinylRecords getCachedCollection
  rw [hvalid, hcoll]
  simp [hne]

/-- Witness for C1 at a concrete environment. -/
theorem C1_cache_hit_witness :
    isCacheValid cGetEnv.now cGetEnv.store = true ∧
    (0:Nat) < [cRec].length ∧
    ((getVinylRecords false false cGetEnv).records = [cRec] ∧
      (getVinylRecords false false cGetEnv).result =
        { success := true, recordsProcessed := 1, errors := [], duration := 0,
          fromCache := true } ∧
      (getVinylRecords false false cGetEnv).remoteCalls = []) :=
  ⟨by decide, by decide,
    C1_cache_hit false cGetEnv [cRec] (by decide) rfl (by decide)⟩

/-! ## C10 — an empty remote collection is treated as a failure -/

/-- **C10.** When the connection test succeeds but the collection fetch
returns zero releases, the run is treated as a failure: the cache is not
written, the error `No releases found in your Discogs collection` is
accumulated, the result is unsuccessful, and previously cached records (if
any) are returned unchanged. -/
theorem C10_empty_collection_is_failure (env : SyncEnv) (skipMasterData : Bool)
    (hconn : env.connTest.success = true)
    (hfetch : env.fetched = .ok []) :
    (syncFromDiscogs env skipMasterData).cacheWritten = none ∧
    (syncFromDiscogs env skipMasterData).thrown =
      some "No releases found in your Discogs collection" ∧
    "No releases found in your Discogs collection" ∈
      (syncFromDiscogs env skipMasterData).result.errors ∧
    (syncFromDiscogs env skipMasterData).result.success = false ∧
    (∀ l, env.fallbackCache = some l → 0 < l.length →
      (syncFromDiscogs env skipMasterData).records = l) := by
  unfold syncFromDiscogs
  rw [hconn, hfetch]
  simp only [Bool.true_eq_false, if_false, List.length_nil, if_pos rfl]
  unfold syncCatch
  match hfb : env.fallbackCache with
  | none => simp
  | some cached =>
    by_cases hlen : cached.length > 0
    · simp [hlen]
    · simp [hlen]

/-- Witness for C10 at a concrete environment. -/
theorem C10_empty_collection_is_failure_witness :
    cSyncEnvEmptyFetch.connTest.success = true ∧
    cSyncEnvEmptyFetch.fetched = .ok [] ∧
    ((syncFromDiscogs cSyncEnvEmptyFetch false).cacheWritten = none ∧
      (syncFromDiscogs cSyncEnvEmptyFetch false).thrown =
        some "No releases found in your Discogs collection" ∧
      "No releases found in your Discogs collection" ∈
        (syncFromDiscogs cSyncEnvEmptyFetch false).result.errors ∧
      (syncFromDiscogs cSyncEnvEmptyFetch false).result.success = false ∧
      (∀ l, cSyncEnvEmptyFetch.fallbackCache = some l → 0 < l.length →
        (syncFromDiscogs cSyncEnvEmptyFetch false).records = l)) :=
  ⟨rfl, rfl, C10_empty_collection_is_failure cSyncEnvEmptyFetch false rfl rfl⟩

/-! ## C2 — every caught failure degrades to the cache -/

/-- The `catch` block always reports the thrown message, and answers with
the non-empty cached collection (degraded) or an empty failure result. -/
theorem syncCatch_spec (env : SyncEnv) (p : List SyncProgress) (rc : List String)
    (errs : List String) (m : String) (d : Nat) :
    (syncCatch env p rc errs m d).thrown = some m ∧
    (∀ l, env.fallbackCache = some l → 0 < l.length →
      (syncCatch env p rc errs m d).records = l ∧
      (syncCatch env p rc errs m d).result.success = false ∧
      (syncCatch env p rc errs m d).result.fromCache = true ∧
      (syncCatch env p rc errs m d).result.recordsProcessed = l.length ∧
      (syncCatch env p rc errs m d).result.errors = errs ++ [m]) ∧
    ((env.fallbackCache.getD []).length = 0 →
      (syncCatch env p rc errs m d).records = [] ∧
      (syncCatch env p rc errs m d).result.success = false ∧
      (syncCatch env p rc errs m d).result.fromCache = false ∧
      (syncCatch env p rc errs m d).result.errors = errs ++ [m]) := by
  unfold syncCatch
  match hfb : env.fallbackCache with
  | none => simp
  | some cached =>
    by_cases hlen : cached.length > 0
    · simp only [hlen, if_true]
      refine ⟨by trivial, fun l hl hpos => ?_, fun h0 => ?_⟩
      · cases hl; simp
      · simp only [Option.getD_some] at h0; omega
    · simp only [hlen, if_false]
      refine ⟨by trivial, fun l hl hpos => ?_, fun _ => by simp⟩
      cases hl; omega

/-- A `syncFromDiscogs` run either succeeds (nothing thrown) or is answered
by the `catch` block. -/
theorem syncFromDiscogs_cases (env : SyncEnv) (skipMasterData : Bool) :
    (syncFromDiscogs env skipMasterData).thrown = none ∨
    ∃ p rc errs m d, syncFromDiscogs env skipMasterData = syncCatch env p rc errs m d := by
  have tail : ∀ p rc er, (syncTransformTail env p rc er).thrown = none ∨
      ∃ p2 rc2 errs m d, syncTransformTail env p rc er = syncCatch env p2 rc2 errs m d := by
    intro p rc er
    by_cases hw : env.cacheWriteOk
    · left; simp only [syncTransformTail, hw, if_true]
    · right; simp only [syncTransformTail, hw, if_false]
      exact ⟨_, _, _, _, _, rfl⟩
  unfold syncFromDiscogs
  by_cases hc : env.connTest.success = false
  · simp only [hc, if_true]; right; exact ⟨_, _, _, _, _, rfl⟩
  · simp only [hc, if_false]
    cases hf : env.fetched with
    | error e => right; exact ⟨_, _, _, _, _, rfl⟩
    | ok rels =>
      by_cases h0 : rels.length = 0
      · simp only [h0, if_true]; right; exact ⟨_, _, _, _, _, rfl⟩
      · simp only [h0, if_false]
        cases skipMasterData with
        | true => simp only [if_true]; exact tail _ _ _
        | false =>
          simp only [Bool.false_eq_true, if_false]
          cases he : env.enrich rels with
          | error e => right; exact ⟨_, _, _, _, _, rfl⟩
          | ok enriched => exact tail _ _ _

/-- **C2.** A run in which any phase throws does not rethrow: if a cached
collection with at least one record exists, it is returned with
`success = false, fromCache = true` and the failure message appended to the
error list; otherwise an empty record list is returned with
`success = false, fromCache = false` and the accumulated errors (the
failure message last). -/
theorem C2_failure_degrades_to_cache (env : SyncEnv) (skipMasterData : Bool)
    (msg : String)
    (h : (syncFromDiscogs env skipMasterData).thrown = some msg) :
    (∀ l, env.fallbackCache = some l → 0 < l.length →
      (syncFromDiscogs env skipMasterData).records = l ∧
      (syncFromDiscogs env skipMasterData).result.success = false ∧
      (syncFromDiscogs env skipMasterData).result.fromCache = true ∧
      (syncFromDiscogs env skipMasterData).result.recordsProcessed = l.length ∧
      (syncFromDiscogs env skipMasterData).result.errors.getLast? = some msg) ∧
    ((env.fallbackCache.getD []).length = 0 →
      (syncFromDiscogs env skipMasterData).records = [] ∧
      (syncFromDiscogs env skipMasterData).result.success = false ∧
      (syncFromDiscogs env skipMasterData).result.fromCache = false ∧
      (syncFromDiscogs env skipMasterData).result.errors.getLast? = some msg) := by
  rcases syncFromDiscogs_cases env skipMasterData with hn | ⟨p, rc, errs, m, d, heq⟩
  · rw [hn] at h; cases h
  · rw [heq] at h ⊢
    obtain ⟨ht, hfull, hempty⟩ := syncCatch_spec env p rc errs m d
    rw [ht] at h
    obtain rfl : m = msg := by injection h
    refine ⟨fun l hl hlen => ?_, fun h0 => ?_⟩
    · obtain ⟨h1, h2, h3, h4, h5⟩ := hfull l hl hlen
      exact ⟨h1, h2, h3, h4, by rw [h5, List.getLast?_concat]⟩
    · obtain ⟨h1, h2, h3, h4⟩ := hempty h0
      exact ⟨h1, h2, h3, by rw [h4, List.getLast?_concat]⟩

/-- Witness for C2 at a concrete failing environment (connection refused). -/
theorem C2_failure_degrades_to_cache_witness :
    (syncFromDiscogs cSyncEnvConnFail false).thrown = some "no conn" ∧
    ((syncFromDiscogs cSyncEnvConnFail false).records = [cRec] ∧
      (syncFromDiscogs cSyncEnvConnFail false).result.success = false ∧
      (syncFromDiscogs cSyncEnvConnFail false).result.fromCache = true ∧
      (syncFromDiscogs cSyncEnvConnFail false).result.recordsProcessed = 1 ∧
      (syncFromDiscogs cSyncEnvConnFail false).result.errors.getLast? =
        some "no conn") :=
  ⟨by decide,
    by
      have := (C2_failure_degrades_to_cache cSyncEnvConnFail false "no conn"
        (by decide)).1 [cRec] rfl (by decide)
      simpa using this⟩

/-! ## C9 — single-record mutations and metadata consistency

The claim as stated fails: `addCachedRecord` on a store that has no
metadata (e.g. a never-synced cache) writes a non-empty snapshot without
writing metadata, because the metadata update is guarded by
`if (metadata)`.  Whenever metadata does exist before the mutation, all
three mutations leave the store consistent. -/

/-- **C9 (counterexample).** Adding a record to an empty store produces a
non-empty stored collection with no metadata at all, so the snapshot is
considered present without matching metadata and no record count can equal
the list length. -/
theorem C9_counterexample :
    (addCachedRecord cRec { collection := none, metadata := none }).collection =
      some [cRec] ∧
    (addCachedRecord cRec { collection := none, metadata := none }).metadata =
      none ∧
    metadataConsistent (addCachedRecord cRec { collection := none, metadata := none }) =
      false := by
  decide

/-- **C9 (amended).** Provided the store is consistent and metadata exists
before the mutation, every completed single-record mutation
(`updateCachedRecord`, `addCachedRecord`, `removeCachedRecord`) leaves the
stored metadata record count equal to the stored list length (and the
snapshot is never present without matching metadata). -/
theorem C9_mutations_preserve_consistency (store : CacheStore) (recordId : String)
    (record : VinylRecord)
    (hcons : metadataConsistent store = true)
    (hmeta : store.metadata.isSome = true) :
    (∀ store2, updateCachedRecord recordId record store = .ok store2 →
      metadataConsistent store2 = true) ∧
    metadataConsistent (addCachedRecord record store) = true ∧
    (∀ store2, removeCachedRecord recordId store = .ok store2 →
      metadataConsistent store2 = true) := by
  obtain ⟨md, hmd⟩ := Option.isSome_iff_exists.mp hmeta
  refine ⟨?_, ?_, ?_⟩
  · intro store2 h
    unfold updateCachedRecord at h
    split at h
    · cases h
    · next records hc =>
      split at h
      · cases h
      · next index hidx =>
        injection h with h
        subst h
        simp only [metadataConsistent, hc, hmd] at hcons
        simp [metadataConsistent, hmd, List.length_set, hcons]
  · unfold addCachedRecord metadataConsistent
    rw [hmd]
    simp
  · intro store2 h
    unfold removeCachedRecord at h
    split at h
    · cases h
    · next records hc =>
      simp only [hmd] at h
      split at h
      · cases h
      · injection h with h
        subst h
        simp [metadataConsistent]

/-- Witness for the amended C9 at a concrete consistent store. -/
theorem C9_mutations_preserve_consistency_witness :
    metadataConsistent cStore = true ∧ cStore.metadata.isSome = true ∧
    metadataConsistent (addCachedRecord cRec cStore) = true :=
  ⟨by decide, by decide,
    (C9_mutations_preserve_consistency cStore "1" cRec (by decide) (by decide)).2.1⟩

/-! ## C5 — retry classification of `makeRequest`

The claim fails on the code: the response interceptor converts 401/404/422
responses into plain `Error`s, and p-retry retries every plain error, so an
authentication failure is retried exactly like a transient one.  What does
hold: every request performs at most 4 attempts (3 retries) with the
exponential backoff 1000·2^k ms capped at 5000 ms, and the attempt count
depends only on which attempts fail — never on the failing status. -/

/-- A request whose first attempt is rejected with HTTP 401 and whose
second attempt succeeds. -/
def cAttempts401 : Nat → Except DiscogsHttpError Nat :=
  fun k => if k = 0 then .error (.http 401 none) else .ok 42

/-- A request all of whose attempts are rejected with HTTP 401. -/
def cAttemptsAll401 : Nat → Except DiscogsHttpError Nat :=
  fun _ => .error (.http 401 none)

/-- A request all of whose attempts are rejected with HTTP 404. -/
def cAttemptsAll404 : Nat → Except DiscogsHttpError Nat :=
  fun _ => .error (.http 404 none)

/-- **C5 (counterexample).** A 401 response does not fail immediately: the
request is retried (after a 1000 ms backoff) and succeeds on its second
attempt, so the claimed no-retry classification does not exist in the
code. -/
theorem C5_counterexample :
    requestAttempts cAttempts401 = 2 ∧ requestAttempts cAttempts401 ≠ 1 ∧
    requestResult cAttempts401 = .ok 42 ∧ requestDelays cAttempts401 = [1000] :=
  ⟨rfl, by decide, rfl, rfl⟩

/-- Attempt counts of a p-retry run depend only on which attempts succeed. -/
theorem pRetryAux_attempts_congr {α β : Type}
    (f : Nat → Except DiscogsHttpError α) (g : Nat → Except DiscogsHttpError β)
    (h : ∀ j, attemptOk (f j) = attemptOk (g j)) :
    ∀ rem k, (pRetryAux f k rem).2.1 = (pRetryAux g k rem).2.1 := by
  intro rem
  induction rem with
  | zero =>
    intro k
    have hk := h k
    unfold pRetryAux
    cases hf : f k <;> cases hg : g k <;>
      simp [hf, hg, attemptOk] at hk ⊢
  | succ rem ih =>
    intro k
    have hk := h k
    unfold pRetryAux
    cases hf : f k <;> cases hg : g k <;>
      simp [hf, hg, attemptOk, ih] at hk ⊢

/-- A p-retry run with `rem` retries left makes at most `rem + 1` attempts. -/
theorem pRetryAux_attempts_le {α : Type}
    (f : Nat → Except DiscogsHttpError α) :
    ∀ rem k, (pRetryAux f k rem).2.1 ≤ rem + 1 := by
  intro rem
  induction rem with
  | zero => intro k; unfold pRetryAux; cases f k <;> simp
  | succ rem ih =>
    intro k
    unfold pRetryAux
    cases f k <;> simp
    exact ih (k + 1)

/-- A p-retry run makes at least one attempt. -/
theorem pRetryAux_attempts_pos {α : Type}
    (f : Nat → Except DiscogsHttpError α) :
    ∀ rem k, 1 ≤ (pRetryAux f k rem).2.1 := by
  intro rem
  induction rem with
  | zero => intro k; unfold pRetryAux; cases f k <;> simp
  | succ rem ih =>
    intro k
    unfold pRetryAux
    cases f k <;> simp

/-- The delays of a p-retry run are the exponential backoff schedule for
the attempts actually made. -/
theorem pRetryAux_delays {α : Type} (f : Nat → Except DiscogsHttpError α) :
    ∀ rem k, (pRetryAux f k rem).2.2 =
      (List.range ((pRetryAux f k rem).2.1 - 1)).map
        (fun i => pRetryDelay (k + 1 + i)) := by
  intro rem
  induction rem with
  | zero => intro k; unfold pRetryAux; cases f k <;> simp
  | succ rem ih =>
    intro k
    unfold pRetryAux
    cases f k with
    | ok v => simp
    | error e =>
      simp only []
      have hpos := pRetryAux_attempts_pos f rem (k + 1)
      obtain ⟨n, hn⟩ : ∃ n, (pRetryAux f (k + 1) rem).2.1 = n + 1 :=
        ⟨(pRetryAux f (k + 1) rem).2.1 - 1, by omega⟩
      rw [ih (k + 1), hn]
      simp only [Nat.add_sub_cancel, List.range_succ_eq_map, List.map_cons,
        List.map_map]
      congr 1
      apply List.map_congr_left
      intro a _
      simp only [Function.comp_apply]
      congr 1
      omega

/-- **C5 (amended).** Every failure — authentication (401), not-found
(404), and request-validation (422) included — is retried exactly like a
transient failure: the number of attempts of a `makeRequest` run depends
only on which attempts fail (never on the status of the failures), is at
most 4 (3 retries), and the waits between attempts follow the exponential
backoff `min(1000·2^k, 5000)` ms. -/
theorem C5_all_failures_retried_alike {α β : Type}
    (f : Nat → Except DiscogsHttpError α) (g : Nat → Except DiscogsHttpError β)
    (h : ∀ j, attemptOk (f j) = attemptOk (g j)) :
    requestAttempts f = requestAttempts g ∧
    requestAttempts f ≤ 4 ∧
    requestDelays f =
      (List.range (requestAttempts f - 1)).map (fun i => pRetryDelay (i + 1)) := by
  refine ⟨pRetryAux_attempts_congr f g h 3 0, pRetryAux_attempts_le f 3 0, ?_⟩
  have := pRetryAux_delays f 3 0
  unfold requestDelays requestAttempts makeRequest
  rw [this]
  apply List.map_congr_left
  intro i _
  congr 1
  omega

/-- Witness for the amended C5: all-401 and all-404 runs behave alike. -/
theorem C5_all_failures_retried_alike_witness :
    requestAttempts cAttemptsAll401 = requestAttempts cAttemptsAll404 ∧
    requestAttempts cAttemptsAll401 ≤ 4 ∧
    requestDelays cAttemptsAll401 =
      (List.range (requestAttempts cAttemptsAll401 - 1)).map
        (fun i => pRetryDelay (i + 1)) :=
  C5_all_failures_retried_alike cAttemptsAll401 cAttemptsAll404 (fun _ => rfl)

/-! ## C7 — validation filters and counts malformed records -/

/-- The `catch` block never reports success. -/
theorem syncCatch_success_false (env : SyncEnv) (p : List SyncProgress)
    (rc : List String) (errs : List String) (m : String) (d : Nat) :
    (syncCatch env p rc errs m d).result.success = false := by
  unfold syncCatch
  match env.fallbackCache with
  | none => simp
  | some cached => by_cases hlen : cached.length > 0 <;> simp [hlen]

/-- A `syncFromDiscogs` run is answered either by the `catch` block or by
the transform tail. -/
theorem syncFromDiscogs_shape (env : SyncEnv) (skipMasterData : Bool) :
    (∃ p rc errs m d, syncFromDiscogs env skipMasterData = syncCatch env p rc errs m d) ∨
    (∃ p rc er, syncFromDiscogs env skipMasterData = syncTransformTail env p rc er) := by
  unfold syncFromDiscogs
  by_cases hc : env.connTest.success = false
  · simp only [hc, if_true]; left; exact ⟨_, _, _, _, _, rfl⟩
  · simp only [hc, if_false]
    cases hf : env.fetched with
    | error e => left; exact ⟨_, _, _, _, _, rfl⟩
    | ok rels =>
      by_cases h0 : rels.length = 0
      · simp only [h0, if_true]; left; exact ⟨_, _, _, _, _, rfl⟩
      · simp only [h0, if_false]
        cases skipMasterData with
        | true => simp only [if_true]; right; exact ⟨_, _, _, rfl⟩
        | false =>
          simp only [Bool.false_eq_true, if_false]
          cases he : env.enrich rels with
          | error e => left; exact ⟨_, _, _, _, _, rfl⟩
          | ok enriched => right; exact ⟨_, _, _, rfl⟩

/-- A successful transform tail requires a successful cache write, and its
error list is exactly the dropped-record count message (or nothing). -/
theorem syncTransformTail_success_errors (env : SyncEnv) (p : List SyncProgress)
    (rc : List String)
    (er : List (DiscogsRelease × Option DiscogsMasterRelease))
    (h : (syncTransformTail env p rc er).result.success = true) :
    (syncTransformTail env p rc er).result.errors =
      (if (syncTransformTail env p rc er).dropped = 0 then []
       else [invalidRecordsMsg (syncTransformTail env p rc er).dropped]) := by
  by_cases hw : env.cacheWriteOk
  · simp only [syncTransformTail, hw, if_true]
    have hle :
        (filterValidRecords
            (er.enum.map fun q =>
              transformDiscogsToVinylRecord (env.tenv q.1) q.2.1 q.2.2 q.1)).length ≤
          (er.enum.map fun q =>
            transformDiscogsToVinylRecord (env.tenv q.1) q.2.1 q.2.2 q.1).length :=
      List.length_filter_le _ _
    set t := (er.enum.map fun q =>
      transformDiscogsToVinylRecord (env.tenv q.1) q.2.1 q.2.2 q.1) with ht
    set v := filterValidRecords t with hv
    by_cases heq : v.length = t.length
    · simp [heq]
    · have : t.length - v.length ≠ 0 := by omega
      simp [heq, this]
  · exfalso
    simp only [Bool.not_eq_true] at hw
    simp only [syncTransformTail, hw, Bool.false_eq_true, if_false,
      syncCatch_success_false] at h

/-- **C7.** The validated output of `filterValidRecords` contains exactly
the input records whose id, title, artist, year, label, cover reference are
present (non-empty), whose genre list is non-empty and which have at least
one track; records missing any of these are dropped, never propagated; and
a successful sync run's error list consists exactly of the dropped-record
count message when any record was dropped. -/
theorem C7_validation_filters_and_counts :
    (∀ (r : VinylRecord) (l : List VinylRecord),
      r ∈ filterValidRecords l ↔
        r ∈ l ∧ r.id ≠ "" ∧ r.title ≠ "" ∧ r.artist ≠ "" ∧ r.year ≠ "" ∧
          r.label ≠ "" ∧ r.genres ≠ [] ∧ r.coverUrl ≠ "" ∧ r.tracks ≠ []) ∧
    (∀ (env : SyncEnv) (skipMasterData : Bool),
      (syncFromDiscogs env skipMasterData).result.success = true →
      (syncFromDiscogs env skipMasterData).result.errors =
        (if (syncFromDiscogs env skipMasterData).dropped = 0 then []
         else [invalidRecordsMsg (syncFromDiscogs env skipMasterData).dropped])) := by
  constructor
  · intro r l
    simp only [filterValidRecords, List.mem_filter, validateVinylRecord,
      Bool.and_eq_true, decide_eq_true_eq, List.length_pos]
    tauto
  · intro env skipMasterData h
    rcases syncFromDiscogs_shape env skipMasterData with
      ⟨p, rc, errs, m, d, heq⟩ | ⟨p, rc, er, heq⟩
    · rw [heq] at h
      rw [syncCatch_success_false] at h
      cases h
    · rw [heq] at h ⊢
      exact syncTransformTail_success_errors env p rc er h

/-- Witness for C7 at concrete inputs. -/
theorem C7_validation_filters_and_counts_witness :
    (cRec ∈ filterValidRecords [cRec] ↔
      cRec ∈ [cRec] ∧ cRec.id ≠ "" ∧ cRec.title ≠ "" ∧ cRec.artist ≠ "" ∧
        cRec.year ≠ "" ∧ cRec.label ≠ "" ∧ cRec.genres ≠ [] ∧
        cRec.coverUrl ≠ "" ∧ cRec.tracks ≠ []) ∧
    ((syncFromDiscogs cSyncEnv false).result.success = true ∧
      (syncFromDiscogs cSyncEnv false).result.errors =
        (if (syncFromDiscogs cSyncEnv false).dropped = 0 then []
         else [invalidRecordsMsg (syncFromDiscogs cSyncEnv false).dropped])) :=
  ⟨C7_validation_filters_and_counts.1 cRec [cRec],
    ⟨by decide,
      C7_validation_filters_and_counts.2 cSyncEnv false (by decide)⟩⟩

/-! ## C8 — progress percentages

The claim as stated fails: the `catch` block reports its error progress
event with `progress: 0`, so any run that fails after having reported a
positive percentage delivers a decreasing step at the very end.  What
holds: the sequence is monotone up to (and excluding) the final callback,
and on successful runs it is monotone throughout. -/

/-- The percentages delivered to the progress callback, in order. -/
def progressPercents (out : SyncOutput) : List Nat :=
  out.progress.map (·.progress)

/-- The progress events of a run answered by the `catch` block. -/
theorem syncCatch_progress (env : SyncEnv) (p : List SyncProgress)
    (rc : List String) (errs : List String) (m : String) (d : Nat) :
    (syncCatch env p rc errs m d).progress =
      p ++ [{ phase := .error, progress := 0, message := s!"Sync failed: {m}",
              recordsProcessed := none, totalRecords := none }] := by
  unfold syncCatch
  match env.fallbackCache with
  | none => simp
  | some cached => by_cases hlen : cached.length > 0 <;> simp [hlen]

/-- Percentages of a run answered by the transform tail. -/
theorem percents_syncTransformTail (env : SyncEnv) (p : List SyncProgress)
    (rc : List String)
    (er : List (DiscogsRelease × Option DiscogsMasterRelease)) :
    progressPercents (syncTransformTail env p rc er) =
      p.map (·.progress) ++ [70, 80, 90] ++
        (if env.cacheWriteOk then [100] else [0]) := by
  unfold syncTransformTail
  by_cases hw : env.cacheWriteOk
  · simp [hw, progressPercents]
  · simp only [Bool.not_eq_true] at hw
    simp only [hw, Bool.false_eq_true, if_false]
    rw [progressPercents, syncCatch_progress]
    simp [List.map_append]

/-- Percentage behaviour of a `catch`-answered run: monotone except for
the final 0, and never a success. -/
theorem chainP_syncCatch (env : SyncEnv) (p : List SyncProgress)
    (rc : List String) (errs : List String) (m : String) (d : Nat)
    (hp : List.Chain' (· ≤ ·) (p.map (·.progress))) :
    List.Chain' (· ≤ ·) (progressPercents (syncCatch env p rc errs m d)).dropLast ∧
    ((syncCatch env p rc errs m d).result.success = true →
      List.Chain' (· ≤ ·) (progressPercents (syncCatch env p rc errs m d))) := by
  constructor
  · rw [progressPercents, syncCatch_progress, List.map_append]
    simpa [List.dropLast_concat] using hp
  · rw [syncCatch_success_false]
    intro h; cases h

/-- Percentage behaviour of a transform-tail run. -/
theorem chainP_syncTransformTail (env : SyncEnv) (p : List SyncProgress)
    (rc : List String)
    (er : List (DiscogsRelease × Option DiscogsMasterRelease))
    (hp : List.Chain' (· ≤ ·) (p.map (·.progress) ++ [70, 80, 90, 100]))
    (hp3 : List.Chain' (· ≤ ·) (p.map (·.progress) ++ [70, 80, 90])) :
    List.Chain' (· ≤ ·)
      (progressPercents (syncTransformTail env p rc er)).dropLast ∧
    ((syncTransformTail env p rc er).result.success = true →
      List.Chain' (· ≤ ·) (progressPercents (syncTransformTail env p rc er))) := by
  constructor
  · rw [percents_syncTransformTail]
    by_cases hw : env.cacheWriteOk
    · rw [if_pos hw, List.dropLast_concat]; exact hp3
    · rw [if_neg hw, List.dropLast_concat]; exact hp3
  · intro hsucc
    have hw : env.cacheWriteOk = true := by
      by_cases hw : env.cacheWriteOk
      · exact hw
      · exfalso
        simp only [Bool.not_eq_true] at hw
        simp only [syncTransformTail, hw, Bool.false_eq_true, if_false,
          syncCatch_success_false] at hsucc
    rw [percents_syncTransformTail, if_pos hw, List.append_assoc]
    simpa using hp

/-- **C8 (amended).** In every sync run the percentage sequence delivered
to the progress callback is monotonically non-decreasing up to (and
excluding) the final callback, and in every successful run it is
monotonically non-decreasing from the first reported phase to the final
callback; only the terminal error callback of a failed run resets the
percentage to 0. -/
theorem C8_progress_monotone (env : SyncEnv) (skipMasterData : Bool) :
    List.Chain' (· ≤ ·)
      (progressPercents (syncFromDiscogs env skipMasterData)).dropLast ∧
    ((syncFromDiscogs env skipMasterData).result.success = true →
      List.Chain' (· ≤ ·) (progressPercents (syncFromDiscogs env skipMasterData))) := by
  unfold syncFromDiscogs
  by_cases hc : env.connTest.success = false
  · simp only [hc, if_true]
    exact chainP_syncCatch _ _ _ _ _ _ (by simp)
  · simp only [hc, if_false]
    cases hf : env.fetched with
    | error e => exact chainP_syncCatch _ _ _ _ _ _ (by simp)
    | ok rels =>
      by_cases h0 : rels.length = 0
      · simp only [h0, if_true]
        exact chainP_syncCatch _ _ _ _ _ _ (by simp)
      · simp only [h0, if_false]
        cases skipMasterData with
        | true =>
          simp only [if_true]
          exact chainP_syncTransformTail _ _ _ _ (by simp) (by simp)
        | false =>
          simp only [Bool.false_eq_true, if_false]
          cases he : env.enrich rels with
          | error e => exact chainP_syncCatch _ _ _ _ _ _ (by simp)
          | ok enriched =>
            exact chainP_syncTransformTail _ _ _ _ (by simp) (by simp)

/-- Witness for the amended C8 at a concrete successful run. -/
theorem C8_progress_monotone_witness :
    List.Chain' (· ≤ ·)
      (progressPercents (syncFromDiscogs cSyncEnv false)).dropLast ∧
    ((syncFromDiscogs cSyncEnv false).result.success = true ∧
      List.Chain' (· ≤ ·) (progressPercents (syncFromDiscogs cSyncEnv false))) :=
  ⟨(C8_progress_monotone cSyncEnv false).1,
    ⟨by decide, (C8_progress_monotone cSyncEnv false).2 (by decide)⟩⟩

/-- **C8 (counterexample).** A run that fails after the fetch phase has
started delivers the percentages `[0, 10, 20, 0]` — not monotonically
non-decreasing over the run, the final callback included. -/
theorem C8_counterexample :
    progressPercents (syncFromDiscogs cSyncEnvEmptyFetch false) = [0, 10, 20, 0] ∧
    ¬ List.Chain' (· ≤ ·)
        (progressPercents (syncFromDiscogs cSyncEnvEmptyFetch false)) := by
  have h : progressPercents (syncFromDiscogs cSyncEnvEmptyFetch false) =
      [0, 10, 20, 0] := rfl
  refine ⟨h, ?_⟩
  rw [h]
  simp [List.chain'_cons]

/-! ## C3 — year resolution

The claim as stated fails when the master is absent and the release notes
contain a `recorded in <month> <year>` phrase: the fallback master record
built from the release carries `extractRecordingDate`'s capture as its
recording date, and that — not the item's release year — becomes the
resolved year. -/

/-- `matchWordPlus` never captures an empty run. -/
theorem matchWordPlus_fst_ne_nil {s : List Char} {p : List Char × List Char}
    (h : matchWordPlus s = some p) : p.1 ≠ [] := by
  match s with
  | [] => simp [matchWordPlus] at h
  | c :: cs =>
    simp only [matchWordPlus] at h
    split at h
    · injection h with h
      subst h
      simp
    · cases h

/-- The capture group of the `recorded in` pattern is never empty. -/
theorem tryRecordedAt_ne_nil {s : List Char} {g : List Char}
    (h : tryRecordedAt s = some g) : g ≠ [] := by
  unfold tryRecordedAt at h
  simp only [Option.bind_eq_bind, Option.bind_eq_some, Option.map_eq_some'] at h
  obtain ⟨r1, _, ws1, _, r2, _, ws2, _, w, hw, ws3, _, d, _, hg⟩ := h
  subst hg
  have := matchWordPlus_fst_ne_nil hw
  intro hnil
  exact this (List.append_eq_nil.mp (List.append_eq_nil.mp hnil).1).1

/-- A successful scan of the `recorded in` pattern yields a non-empty
capture. -/
theorem searchRecordedIn_ne_nil :
    ∀ {s : List Char} {g : List Char}, searchRecordedIn s = some g → g ≠ [] := by
  intro s
  induction s with
  | nil => intro g h; simp [searchRecordedIn] at h
  | cons c cs ih =>
    intro g h
    simp only [searchRecordedIn] at h
    split at h
    · injection h with h
      subst h
      exact tryRecordedAt_ne_nil (by assumption)
    · exact ih h

/-- `extractRecordingDate` never returns the empty string. -/
theorem extractRecordingDate_ne_empty {r : DiscogsRelease} {d : String}
    (h : extractRecordingDate r = some d) : d ≠ "" := by
  have hyear : ∀ (d : String),
      (match r.year with
       | some y => if y ≠ 0 then some (toString y) else none
       | none => none) = some d → d ≠ "" := by
    intro d h
    cases hy : r.year with
    | none => simp [hy] at h
    | some y =>
      simp only [hy] at h
      by_cases hy0 : y ≠ 0
      · rw [if_pos hy0] at h
        injection h with h
        subst h
        exact intToString_ne_empty y
      · simp [hy0] at h
  unfold extractRecordingDate at h
  cases hn : r.notes with
  | none =>
    simp only [hn] at h
    exact hyear d h
  | some notes =>
    simp only [hn] at h
    by_cases hne : notes ≠ ""
    · rw [if_pos hne] at h
      cases hs : searchRecordedIn (cleanDiscogsMarkup notes).toList with
      | some grp =>
        simp only [hs] at h
        injection h with h
        subst h
        intro hempty
        exact searchRecordedIn_ne_nil hs
          (by simpa [String.ext_iff] using hempty)
      | none =>
        simp only [hs] at h
        exact hyear d h
    · simp only [if_neg hne] at h
      exact hyear d h

/-- The item's own release year rendered as a string
(`basic_information.year` when basic information is present, else the
top-level `year`), with the sentinel `"Unknown"` when absent or zero. -/
def itemYearString (release : DiscogsRelease) : String :=
  match (match release.basic_information with
         | some b => some b.year
         | none => release.year) with
  | some y => if y ≠ 0 then toString y else "Unknown"
  | none => "Unknown"

/-- Modelled from the amended claim wording: the resolved year is the
master's year as a string when the master is present with a positive year;
with a master present but a non-positive year, the item's release year
string (or `"Unknown"`); with no master at all, the recording date
extracted from the release (a `recorded in <word> <4 digits>` capture from
the cleaned notes, else the release's top-level year as a string) takes
precedence, then the item's release year string, then `"Unknown"`. -/
def resolvedYear (release : DiscogsRelease)
    (master : Option DiscogsMasterRelease) : String :=
  match master with
  | some m => if m.year > 0 then toString m.year else itemYearString release
  | none =>
    match extractRecordingDate release with
    | some d => d
    | none => itemYearString release

/-- The pressing's `releaseDate` is the item year string. -/
theorem transformVinyl_releaseDate (env : JsEnv) (r : DiscogsRelease)
    (mid : String) (idx : Nat) :
    (transformDiscogsVinylRelease env r mid idx).releaseDate =
      itemYearString r := by
  unfold transformDiscogsVinylRelease itemYearString
  cases r.basic_information <;> simp

/-- The item year string is never empty. -/
theorem itemYearString_ne_empty (r : DiscogsRelease) : itemYearString r ≠ "" := by
  unfold itemYearString
  split
  · split
    · exact intToString_ne_empty _
    · decide
  · decide

/-- **C3 (amended).** For every release and optional master, the resolved
year equals `resolvedYear`: the master's year as a string when the master
is present with a positive year; otherwise (master present, year missing
or non-positive) the item's release year string or `"Unknown"`; when the
master is absent, a recording date extracted from the release notes or
top-level year takes precedence over the item's release year string, with
`"Unknown"` as the final fallback. -/
theorem C3_year_resolution (env : JsEnv) (r : DiscogsRelease)
    (m : Option DiscogsMasterRelease) (idx : Nat) :
    (transformDiscogsToVinylRecord env r m idx).year = resolvedYear r m := by
  unfold transformDiscogsToVinylRecord resolvedYear
  cases m with
  | some dm =>
    simp only [transformDiscogsMasterRelease]
    by_cases hy : dm.year > 0
    · simp only [hy, if_true]
      unfold jsOrStr2
      simp [intToString_ne_empty dm.year]
    · simp only [hy, if_false]
      unfold jsOrStr2
      simp [transformVinyl_releaseDate, itemYearString_ne_empty r]
  | none =>
    simp only []
    cases hrd : extractRecordingDate r with
    | some d =>
      unfold jsOrStr2
      simp [hrd, extractRecordingDate_ne_empty hrd]
    | none =>
      unfold jsOrStr2
      simp [hrd, transformVinyl_releaseDate, itemYearString_ne_empty r]

/-- A release whose notes carry a `recorded in` phrase. -/
def cRelNotes : DiscogsRelease :=
  { cRel with notes := some "Recorded in June 1957" }

/-- **C3 (counterexample).** With no master, release year 1970 and notes
`"Recorded in June 1957"`, the transformed year is `"June 1957"`, not the
`"1970"` the claim requires. -/
theorem C3_counterexample :
    (transformDiscogsToVinylRecord cJsEnv cRelNotes none 0).year = "June 1957" ∧
    cRelNotes.year = some 1970 ∧
    (transformDiscogsToVinylRecord cJsEnv cRelNotes none 0).year ≠ "1970" := by
  refine ⟨rfl, rfl, ?_⟩
  decide

/-! ## C4 — cleaning is *not* idempotent

Removing a disallowed character can expose leading/trailing or doubled
whitespace that only a second `trim`/collapse pass would normalize, and
the 1000-character truncation can likewise expose a trailing space.  So a
second application of `cleanText` differs from the first exactly by one
more trim-and-collapse pass; `cleanText` is idempotent precisely on the
inputs whose cleaned form is already whitespace-normalized. -/

/-- The tag-replacement pass is the identity on bracket-free text. -/
theorem replaceTagAux_no_bracket (t : Char) :
    ∀ (fuel : Nat) (s : List Char), '[' ∉ s → replaceTagAux t fuel s = s := by
  intro fuel
  induction fuel with
  | zero => intro s _; rfl
  | succ fuel ih =>
    intro s hs
    match s with
    | [] => rfl
    | c :: cs =>
      have hc : c ≠ '[' := fun h => hs (h ▸ List.mem_cons_self c cs)
      have hcs : '[' ∉ cs := fun h => hs (List.mem_cons_of_mem c h)
      show (if c = '[' then _ else c :: replaceTagAux t fuel cs) = c :: cs
      rw [if_neg hc, ih cs hcs]

/-- The generic-tag pass is the identity on bracket-free text. -/
theorem replaceGenericTagAux_no_bracket :
    ∀ (fuel : Nat) (s : List Char), '[' ∉ s → replaceGenericTagAux fuel s = s := by
  intro fuel
  induction fuel with
  | zero => intro s _; rfl
  | succ fuel ih =>
    intro s hs
    match s with
    | [] => rfl
    | c :: cs =>
      have hc : c ≠ '[' := fun h => hs (h ▸ List.mem_cons_self c cs)
      have hcs : '[' ∉ cs := fun h => hs (List.mem_cons_of_mem c h)
      show (if c = '[' then _ else c :: replaceGenericTagAux fuel cs) = c :: cs
      rw [if_neg hc, ih cs hcs]

/-- The empty-bracket pass is the identity on bracket-free text. -/
theorem removeEmptyBracketsAux_no_bracket :
    ∀ (fuel : Nat) (s : List Char), '[' ∉ s → removeEmptyBracketsAux fuel s = s := by
  intro fuel
  induction fuel with
  | zero => intro s _; rfl
  | succ fuel ih =>
    intro s hs
    match s with
    | [] => rfl
    | c :: cs =>
      have hc : c ≠ '[' := fun h => hs (h ▸ List.mem_cons_self c cs)
      have hcs : '[' ∉ cs := fun h => hs (List.mem_cons_of_mem c h)
      show (if c = '[' then _ else c :: removeEmptyBracketsAux fuel cs) = c :: cs
      rw [if_neg hc, ih cs hcs]

/-- The six markup passes are the identity on bracket-free text. -/
theorem cleanDiscogsMarkupList_no_bracket {s : List Char} (hs : '[' ∉ s) :
    cleanDiscogsMarkupList s = s := by
  unfold cleanDiscogsMarkupList replaceTag replaceGenericTag removeEmptyBrackets
  rw [replaceTagAux_no_bracket 'l' _ _ hs, replaceTagAux_no_bracket 'a' _ _ hs,
    replaceTagAux_no_bracket 'r' _ _ hs, replaceTagAux_no_bracket 'm' _ _ hs,
    replaceGenericTagAux_no_bracket _ _ hs, removeEmptyBracketsAux_no_bracket _ _ hs]

/-- Whitespace collapsing introduces no characters but the space. -/
theorem mem_collapseWsAux :
    ∀ (s : List Char) (b : Bool), ∀ c ∈ collapseWsAux b s, c ∈ s ∨ c = ' ' := by
  intro s
  induction s with
  | nil => intro b c hc; simp [collapseWsAux] at hc
  | cons c cs ih =>
    intro b x hx
    unfold collapseWsAux at hx
    by_cases hws : jsWhitespaceChar c
    · rw [if_pos hws] at hx
      cases b with
      | true =>
        simp only [if_true] at hx
        rcases ih true x hx with hmem | hsp
        · left; exact List.mem_cons_of_mem c hmem
        · right; exact hsp
      | false =>
        simp only [Bool.false_eq_true, if_false] at hx
        rcases List.mem_cons.mp hx with hsp | hx
        · right; exact hsp
        · rcases ih true x hx with hmem | hsp
          · left; exact List.mem_cons_of_mem c hmem
          · right; exact hsp
    · rw [if_neg hws] at hx
      rcases List.mem_cons.mp hx with hsp | hx
      · left; exact hsp ▸ List.mem_cons_self c cs
      · rcases ih false x hx with hmem | hsp
        · left; exact List.mem_cons_of_mem c hmem
        · right; exact hsp

/-- Whitespace collapsing introduces no characters but the space. -/
theorem mem_collapseWsList (s : List Char) :
    ∀ c ∈ collapseWsList s, c ∈ s ∨ c = ' ' :=
  mem_collapseWsAux s false

/-- Whitespace collapsing never lengthens the text. -/
theorem length_collapseWsAux_le :
    ∀ (s : List Char) (b : Bool), (collapseWsAux b s).length ≤ s.length := by
  intro s
  induction s with
  | nil => intro b; simp [collapseWsAux]
  | cons c cs ih =>
    intro b
    unfold collapseWsAux
    by_cases hws : jsWhitespaceChar c
    · rw [if_pos hws]
      cases b with
      | true =>
        simp only [if_true, List.length_cons]
        exact le_trans (ih true) (Nat.le_succ _)
      | false =>
        simp only [Bool.false_eq_true, if_false, List.length_cons]
        exact Nat.succ_le_succ (ih true)
    · rw [if_neg hws]
      simp only [List.length_cons]
      exact Nat.succ_le_succ (ih false)

/-- Whitespace collapsing never lengthens the text. -/
theorem length_collapseWsList_le (s : List Char) :
    (collapseWsList s).length ≤ s.length :=
  length_collapseWsAux_le s false

/-- Trimming yields a sublist. -/
theorem jsTrimList_sublist (s : List Char) : (jsTrimList s).Sublist s := by
  unfold jsTrimList
  have h1 : (s.dropWhile jsWhitespaceChar).Sublist s :=
    (List.dropWhile_suffix jsWhitespaceChar).sublist
  have h2 :
      (((s.dropWhile jsWhitespaceChar).reverse.dropWhile jsWhitespaceChar).reverse).Sublist
        (s.dropWhile jsWhitespaceChar) := by
    have := ((List.dropWhile_suffix jsWhitespaceChar
      (l := (s.dropWhile jsWhitespaceChar).reverse)).sublist).reverse
    simpa using this
  exact h2.trans h1

/-- Every character of a cleaned string is in the kept class. -/
theorem cleanText_chars_keep (x : String) :
    ∀ c ∈ (cleanText x).toList, keepChar c = true := by
  unfold cleanText
  by_cases hx : x = ""
  · simp [hx, String.toList]
  · rw [if_neg hx]
    intro c hc
    exact (List.mem_filter.mp (List.mem_of_mem_take hc)).2

/-- A cleaned string has at most 1000 characters. -/
theorem cleanText_length_le (x : String) : (cleanText x).toList.length ≤ 1000 := by
  unfold cleanText
  by_cases hx : x = ""
  · simp [hx, String.toList]
  · rw [if_neg hx]
    exact List.length_take_le 1000 _

/-- A second application of `cleanText` performs exactly one further
trim-and-collapse pass on the first application's output. -/
theorem cleanText_twice (x : String) :
    cleanText (cleanText x) = collapseWs (jsTrim (cleanText x)) := by
  by_cases hx : cleanText x = ""
  · rw [hx]; rfl
  · have hkeep := cleanText_chars_keep x
    have hbr : '[' ∉ (cleanText x).toList := fun hmem =>
      absurd (hkeep _ hmem) (by decide)
    have hmarkup : cleanDiscogsMarkup (cleanText x) = cleanText x := by
      unfold cleanDiscogsMarkup
      rw [if_neg hx, cleanDiscogsMarkupList_no_bracket hbr]
      exact String.ext rfl
    rw [cleanText, if_neg hx, hmarkup]
    have hz_keep : ∀ c ∈ collapseWsList (jsTrimList (cleanText x).toList),
        keepChar c = true := by
      intro c hc
      rcases mem_collapseWsList _ c hc with hmem | hsp
      · exact hkeep c ((jsTrimList_sublist _).subset hmem)
      · rw [hsp]; decide
    have hzlen : (collapseWsList (jsTrimList (cleanText x).toList)).length ≤ 1000 :=
      le_trans (length_collapseWsList_le _)
        (le_trans (jsTrimList_sublist _).length_le (cleanText_length_le x))
    rw [List.filter_eq_self.mpr hz_keep, List.take_of_length_le hzlen]
    rfl

/-- **C4 (amended).** `cleanText` is idempotent on every input whose
cleaned form is already whitespace-normalized (unchanged by a further
trim-and-collapse); in general the second application differs from the
first only by that normalization. -/
theorem C4_cleanText_idempotent_on_normalized (x : String)
    (h : collapseWs (jsTrim (cleanText x)) = cleanText x) :
    cleanText (cleanText x) = cleanText x :=
  (cleanText_twice x).trans h

/-- Witness for the amended C4. -/
theorem C4_cleanText_idempotent_on_normalized_witness :
    collapseWs (jsTrim (cleanText "hello world")) = cleanText "hello world" ∧
    cleanText (cleanText "hello world") = cleanText "hello world" :=
  ⟨by decide, C4_cleanText_idempotent_on_normalized "hello world" (by decide)⟩

/-- **C4 (counterexample).** `cleanText` is not idempotent: stripping the
disallowed `@` exposes a leading space that only the second application
trims, so `cleanText (cleanText "@ a") = "a" ≠ " a" = cleanText "@ a"`. -/
theorem C4_counterexample :
    cleanText "@ a" = " a" ∧ cleanText (cleanText "@ a") = "a" ∧
    cleanText (cleanText "@ a") ≠ cleanText "@ a" := by
  refine ⟨rfl, rfl, ?_⟩
  decide

/-! ## C6 — master-fetch deduplication

The claim as stated fails: within one batch of 10, the dedup-map check of
an item runs before any same-batch item's fetch has resolved and written
its map entry, so two releases sharing a master id inside one batch can
both miss the map and fetch the master twice (a valid `Promise.all`
interleaving).  What does hold, for every valid schedule: a master fetched
(successfully) in an earlier batch is never fetched again, every
referenced master is fetched at least once, and a master referenced by at
most one release per batch is fetched exactly once in the whole run. -/

/-- The number of map checks by items whose master id is `m`. -/
def checksForM (mids : List (Option Int)) (m : Int) (es : List BatchEvent) : Nat :=
  (es.filter fun e =>
    match e with
    | .check i => decide (batchMid mids i = some m)
    | .store _ => false).length

section RunBatchSteps

variable (mids : List (Option Int)) (fetchOk : Int → Bool)
variable (es : List BatchEvent) (st : EnrichState)

/-- Step: a check of an item without master id does nothing. -/
theorem runBatch_check_none {i : Nat} (h : batchMid mids i = none) :
    runBatchEvents mids fetchOk (BatchEvent.check i :: es) st =
      runBatchEvents mids fetchOk es st := by
  rw [runBatchEvents, h]

/-- Step: a check that hits the dedup map does nothing. -/
theorem runBatch_check_hit {i : Nat} {m2 : Int} (h : batchMid mids i = some m2)
    (hc : m2 ∈ st.cache) :
    runBatchEvents mids fetchOk (BatchEvent.check i :: es) st =
      runBatchEvents mids fetchOk es st := by
  rw [runBatchEvents, h]
  simp [hc]

/-- Step: a check that misses the dedup map invokes the master fetch. -/
theorem runBatch_check_miss {i : Nat} {m2 : Int} (h : batchMid mids i = some m2)
    (hc : m2 ∉ st.cache) :
    runBatchEvents mids fetchOk (BatchEvent.check i :: es) st =
      runBatchEvents mids fetchOk es
        { st with
          calls := st.calls ++ [m2]
          pending := if fetchOk m2 then st.pending ++ [i] else st.pending } := by
  rw [runBatchEvents, h]
  simp [hc]

/-- Step: the resolution of a successfully fetching item writes its map
entry. -/
theorem runBatch_store_pending {i : Nat} {m2 : Int} (h : batchMid mids i = some m2)
    (hp : i ∈ st.pending) :
    runBatchEvents mids fetchOk (BatchEvent.store i :: es) st =
      runBatchEvents mids fetchOk es { st with cache := st.cache ++ [m2] } := by
  rw [runBatchEvents]
  simp [hp, h]

/-- Step: any other store event does nothing. -/
theorem runBatch_store_skip {i : Nat} (hp : i ∉ st.pending) :
    runBatchEvents mids fetchOk (BatchEvent.store i :: es) st =
      runBatchEvents mids fetchOk es st := by
  rw [runBatchEvents]
  simp [hp]

/-- Step: a store of a pending item without master id does nothing
(unreachable for well-formed pending sets, but covered). -/
theorem runBatch_store_pending_none {i : Nat} (h : batchMid mids i = none)
    (hp : i ∈ st.pending) :
    runBatchEvents mids fetchOk (BatchEvent.store i :: es) st =
      runBatchEvents mids fetchOk es st := by
  rw [runBatchEvents]
  simp [hp, h]

end RunBatchSteps

/-- The cache only grows during a batch. -/
theorem runBatch_cache_mono (mids : List (Option Int)) (fetchOk : Int → Bool)
    {m : Int} :
    ∀ (es : List BatchEvent) (st : EnrichState), m ∈ st.cache →
      m ∈ (runBatchEvents mids fetchOk es st).cache := by
  intro es
  induction es with
  | nil => intro st h; exact h
  | cons e es ih =>
    intro st h
    match e with
    | BatchEvent.check i =>
      cases hmi : batchMid mids i with
      | none => rw [runBatch_check_none _ _ _ _ hmi]; exact ih st h
      | some m2 =>
        by_cases hc : m2 ∈ st.cache
        · rw [runBatch_check_hit _ _ _ _ hmi hc]; exact ih st h
        · rw [runBatch_check_miss _ _ _ _ hmi hc]; exact ih _ h
    | BatchEvent.store i =>
      by_cases hp : i ∈ st.pending
      · cases hmi : batchMid mids i with
        | none => rw [runBatch_store_pending_none _ _ _ _ hmi hp]; exact ih st h
        | some m2 =>
          rw [runBatch_store_pending _ _ _ _ hmi hp]
          exact ih _ (List.mem_append_left _ h)
      · rw [runBatch_store_skip _ _ _ _ hp]; exact ih st h

/-- The call trace only grows during a batch. -/
theorem runBatch_calls_extend (mids : List (Option Int)) (fetchOk : Int → Bool) :
    ∀ (es : List BatchEvent) (st : EnrichState),
      ∃ ex, (runBatchEvents mids fetchOk es st).calls = st.calls ++ ex := by
  intro es
  induction es with
  | nil => intro st; exact ⟨[], by simp [runBatchEvents]⟩
  | cons e es ih =>
    intro st
    match e with
    | BatchEvent.check i =>
      cases hmi : batchMid mids i with
      | none => rw [runBatch_check_none _ _ _ _ hmi]; exact ih st
      | some m2 =>
        by_cases hc : m2 ∈ st.cache
        · rw [runBatch_check_hit _ _ _ _ hmi hc]; exact ih st
        · rw [runBatch_check_miss _ _ _ _ hmi hc]
          obtain ⟨ex, hex⟩ := ih
            { st with
              calls := st.calls ++ [m2]
              pending := if fetchOk m2 then st.pending ++ [i] else st.pending }
          exact ⟨[m2] ++ ex, by simpa using hex⟩
    | BatchEvent.store i =>
      by_cases hp : i ∈ st.pending
      · cases hmi : batchMid mids i with
        | none => rw [runBatch_store_pending_none _ _ _ _ hmi hp]; exact ih st
        | some m2 => rw [runBatch_store_pending _ _ _ _ hmi hp]; exact ih _
      · rw [runBatch_store_skip _ _ _ _ hp]; exact ih st

/-- Once a master id is in the dedup map, a batch adds no call for it. -/
theorem runBatch_no_call_if_cached (mids : List (Option Int))
    (fetchOk : Int → Bool) {m : Int} :
    ∀ (es : List BatchEvent) (st : EnrichState), m ∈ st.cache →
      (runBatchEvents mids fetchOk es st).calls.count m = st.calls.count m := by
  intro es
  induction es with
  | nil => intro st _; rfl
  | cons e es ih =>
    intro st h
    match e with
    | BatchEvent.check i =>
      cases hmi : batchMid mids i with
      | none => rw [runBatch_check_none _ _ _ _ hmi]; exact ih st h
      | some m2 =>
        by_cases hc : m2 ∈ st.cache
        · rw [runBatch_check_hit _ _ _ _ hmi hc]; exact ih st h
        · rw [runBatch_check_miss _ _ _ _ hmi hc]
          have hne : m2 ≠ m := fun he => hc (he ▸ h)
          rw [ih { st with
            calls := st.calls ++ [m2]
            pending := if fetchOk m2 then st.pending ++ [i] else st.pending } h]
          simp [List.count_append, List.count_singleton', hne]
    | BatchEvent.store i =>
      by_cases hp : i ∈ st.pending
      · cases hmi : batchMid mids i with
        | none => rw [runBatch_store_pending_none _ _ _ _ hmi hp]; exact ih st h
        | some m2 =>
          rw [runBatch_store_pending _ _ _ _ hmi hp]
          exact ih _ (List.mem_append_left _ h)
      · rw [runBatch_store_skip _ _ _ _ hp]; exact ih st h

/-- Calls for `m` in a batch are bounded by the number of checks of items
whose master id is `m`. -/
theorem runBatch_count_le (mids : List (Option Int)) (fetchOk : Int → Bool)
    {m : Int} :
    ∀ (es : List BatchEvent) (st : EnrichState),
      (runBatchEvents mids fetchOk es st).calls.count m ≤
        st.calls.count m + checksForM mids m es := by
  intro es
  induction es with
  | nil => intro st; simp [runBatchEvents, checksForM]
  | cons e es ih =>
    intro st
    match e with
    | BatchEvent.check i =>
      have hfil : checksForM mids m (BatchEvent.check i :: es) =
          (if batchMid mids i = some m then 1 else 0) + checksForM mids m es := by
        unfold checksForM
        rw [List.filter_cons]
        by_cases hm : batchMid mids i = some m
        · simp [hm, Nat.add_comm]
        · simp [hm]
      rw [hfil]
      cases hmi : batchMid mids i with
      | none =>
        rw [runBatch_check_none _ _ _ _ hmi]
        exact le_trans (ih st) (by simp)
      | some m2 =>
        by_cases hc : m2 ∈ st.cache
        · rw [runBatch_check_hit _ _ _ _ hmi hc]
          exact le_trans (ih st) (by split <;> omega)
        · rw [runBatch_check_miss _ _ _ _ hmi hc]
          refine le_trans (ih _) ?_
          by_cases hm2 : m2 = m
          · subst hm2
            simp [List.count_append, List.count_singleton']
            omega
          · have hne : (some m2 : Option Int) ≠ some m := by simp [hm2]
            simp [List.count_append, List.count_singleton', hm2, hne]
    | BatchEvent.store i =>
      have hfil : checksForM mids m (BatchEvent.store i :: es) =
          checksForM mids m es := by
        unfold checksForM
        rw [List.filter_cons]
        simp
      rw [hfil]
      by_cases hp : i ∈ st.pending
      · cases hmi : batchMid mids i with
        | none => rw [runBatch_store_pending_none _ _ _ _ hmi hp]; exact ih st
        | some m2 => rw [runBatch_store_pending _ _ _ _ hmi hp]; exact ih _
      · rw [runBatch_store_skip _ _ _ _ hp]; exact ih st

/-- If some item of the batch has master id `m`, both its events are still
to come (or `m` is already cached / pending), then `m` is in the dedup map
when the batch completes. -/
theorem runBatch_cached_after (mids : List (Option Int)) (fetchOk : Int → Bool)
    {m : Int} (hfOk : fetchOk m = true) :
    ∀ (es : List BatchEvent) (st : EnrichState),
      (m ∈ st.cache ∨
       (∃ i, batchMid mids i = some m ∧
          [BatchEvent.check i, BatchEvent.store i].Sublist es) ∨
       (∃ i ∈ st.pending, batchMid mids i = some m ∧ BatchEvent.store i ∈ es)) →
      m ∈ (runBatchEvents mids fetchOk es st).cache := by
  intro es
  induction es with
  | nil =>
    intro st h
    rcases h with h | ⟨i, _, hsub⟩ | ⟨i, _, _, hmem⟩
    · exact h
    · simp at hsub
    · exact absurd hmem (List.not_mem_nil _)
  | cons e es ih =>
    intro st h
    match e with
    | BatchEvent.check j =>
      have htrans :
          ∀ (st' : EnrichState), st'.cache = st.cache →
          (∀ i, i ∈ st.pending → i ∈ st'.pending) →
          (∀ i, batchMid mids i = some m →
            BatchEvent.check i = BatchEvent.check j →
            [BatchEvent.store i].Sublist es →
            (m ∈ st'.cache ∨ (∃ i2 ∈ st'.pending, batchMid mids i2 = some m ∧
              BatchEvent.store i2 ∈ es))) →
          (m ∈ st'.cache ∨
           (∃ i, batchMid mids i = some m ∧
              [BatchEvent.check i, BatchEvent.store i].Sublist es) ∨
           (∃ i ∈ st'.pending, batchMid mids i = some m ∧
              BatchEvent.store i ∈ es)) := by
        intro st' hcache hpend hhead
        rcases h with h1 | ⟨i, hmi, hsub⟩ | ⟨i, hip, hmi, hmem⟩
        · exact Or.inl (hcache ▸ h1)
        · rcases List.sublist_cons_iff.mp hsub with hsub' | ⟨r, hr, hrsub⟩
          · exact Or.inr (Or.inl ⟨i, hmi, hsub'⟩)
          · have hhd : BatchEvent.check i = BatchEvent.check j :=
              (List.cons.injEq _ _ _ _ ▸ hr :
                BatchEvent.check i = BatchEvent.check j ∧ _).1
            have hrs : [BatchEvent.store i].Sublist es := by
              have hr2 : r = [BatchEvent.store i] :=
                ((List.cons.injEq _ _ _ _ ▸ hr :
                  _ ∧ [BatchEvent.store i] = r).2).symm
              exact hr2 ▸ hrsub
            rcases hhead i hmi hhd hrs with hc | hp
            · exact Or.inl hc
            · exact Or.inr (Or.inr hp)
        · rcases List.mem_cons.mp hmem with habs | hmem'
          · cases habs
          · exact Or.inr (Or.inr ⟨i, hpend i hip, hmi, hmem'⟩)
      cases hmj : batchMid mids j with
      | none =>
        rw [runBatch_check_none _ _ _ _ hmj]
        refine ih st (htrans st rfl (fun _ h => h) ?_)
        intro i hmi hhd _
        injection hhd with hij
        rw [hij, hmj] at hmi
        cases hmi
      | some m2 =>
        by_cases hc : m2 ∈ st.cache
        · rw [runBatch_check_hit _ _ _ _ hmj hc]
          refine ih st (htrans st rfl (fun _ h => h) ?_)
          intro i hmi hhd _
          injection hhd with hij
          rw [hij, hmj] at hmi
          injection hmi with hm2
          exact Or.inl (hm2 ▸ hc)
        · rw [runBatch_check_miss _ _ _ _ hmj hc]
          refine ih _ (htrans _ rfl ?_ ?_)
          · intro i hip
            by_cases hf : fetchOk m2
            · simp only [hf, if_true]
              exact List.mem_append_left _ hip
            · simp only [hf, Bool.false_eq_true, if_false]
              exact hip
          · intro i hmi hhd hrs
            injection hhd with hij
            subst hij
            rw [hmj] at hmi
            injection hmi with hm2
            subst hm2
            right
            refine ⟨i, ?_, hmj, ?_⟩
            · simp only [hfOk, if_true]
              exact List.mem_append_right _ (List.mem_singleton_self i)
            · simpa using hrs
    | BatchEvent.store j =>
      have hstep :
          ∀ (st' : EnrichState),
          (∀ x, x ∈ st.cache → x ∈ st'.cache) →
          st'.pending = st.pending →
          (∀ i, i ∈ st.pending → batchMid mids i = some m →
            BatchEvent.store i = BatchEvent.store j → m ∈ st'.cache) →
          (m ∈ st'.cache ∨
           (∃ i, batchMid mids i = some m ∧
              [BatchEvent.check i, BatchEvent.store i].Sublist es) ∨
           (∃ i ∈ st'.pending, batchMid mids i = some m ∧
              BatchEvent.store i ∈ es)) := by
        intro st' hcache hpend hstore
        rcases h with h1 | ⟨i, hmi, hsub⟩ | ⟨i, hip, hmi, hmem⟩
        · exact Or.inl (hcache m h1)
        · rcases List.sublist_cons_iff.mp hsub with hsub' | ⟨r, hr, hrsub⟩
          · exact Or.inr (Or.inl ⟨i, hmi, hsub'⟩)
          · exact absurd ((List.cons.injEq _ _ _ _ ▸ hr :
              BatchEvent.check i = BatchEvent.store j ∧ _).1)
              (by intro hq; cases hq)
        · rcases List.mem_cons.mp hmem with hsame | hmem'
          · exact Or.inl (hstore i hip hmi hsame)
          · exact Or.inr (Or.inr ⟨i, hpend ▸ hip, hmi, hmem'⟩)
      by_cases hp : j ∈ st.pending
      · cases hmj : batchMid mids j with
        | none =>
          rw [runBatch_store_pending_none _ _ _ _ hmj hp]
          refine ih st (hstep st (fun _ h => h) rfl ?_)
          intro i _ hmi hsame
          injection hsame with hij
          rw [hij, hmj] at hmi
          cases hmi
        | some m2 =>
          rw [runBatch_store_pending _ _ _ _ hmj hp]
          refine ih _ (hstep _ (fun x hx => List.mem_append_left _ hx) rfl ?_)
          intro i _ hmi hsame
          injection hsame with hij
          rw [hij, hmj] at hmi
          injection hmi with hm2
          exact List.mem_append_right _ (hm2 ▸ List.mem_singleton_self m2)
      · rw [runBatch_store_skip _ _ _ _ hp]
        refine ih st (hstep st (fun _ h => h) rfl ?_)
        intro i hip _ hsame
        injection hsame with hij
        exact absurd (hij ▸ hip) hp

/-- Membership in the call trace is preserved by a batch run. -/
theorem runBatch_calls_mem (mids : List (Option Int)) (fetchOk : Int → Bool)
    {x : Int} (es : List BatchEvent) (st : EnrichState) (hx : x ∈ st.calls) :
    x ∈ (runBatchEvents mids fetchOk es st).calls := by
  obtain ⟨ex, hex⟩ := runBatch_calls_extend mids fetchOk es st
  rw [hex]
  exact List.mem_append_left _ hx

/-- Every dedup-map entry present after a batch was either there at batch
start or was the subject of a `getMasterRelease` call. -/
theorem runBatch_cache_from_calls (mids : List (Option Int))
    (fetchOk : Int → Bool) :
    ∀ (es : List BatchEvent) (st : EnrichState),
      (∀ i ∈ st.pending, ∃ mi, batchMid mids i = some mi ∧ mi ∈ st.calls) →
      ∀ x ∈ (runBatchEvents mids fetchOk es st).cache,
        x ∈ st.cache ∨ x ∈ (runBatchEvents mids fetchOk es st).calls := by
  intro es
  induction es with
  | nil => intro st _ x hx; exact Or.inl hx
  | cons e es ih =>
    intro st hpok x hx
    match e with
    | BatchEvent.check j =>
      cases hmj : batchMid mids j with
      | none =>
        rw [runBatch_check_none _ _ _ _ hmj] at hx ⊢
        exact ih st hpok x hx
      | some m2 =>
        by_cases hc : m2 ∈ st.cache
        · rw [runBatch_check_hit _ _ _ _ hmj hc] at hx ⊢
          exact ih st hpok x hx
        · rw [runBatch_check_miss _ _ _ _ hmj hc] at hx ⊢
          refine ih _ ?_ x hx
          intro i hip
          by_cases hf : fetchOk m2
          · simp only [hf, if_true] at hip
            rcases List.mem_append.mp hip with hold | hnew
            · obtain ⟨mi, hmi, hmic⟩ := hpok i hold
              exact ⟨mi, hmi, List.mem_append_left _ hmic⟩
            · have hij : i = j := List.mem_singleton.mp hnew
              exact ⟨m2, hij ▸ hmj,
                List.mem_append_right _ (List.mem_singleton_self m2)⟩
          · simp only [hf, Bool.false_eq_true, if_false] at hip
            obtain ⟨mi, hmi, hmic⟩ := hpok i hip
            exact ⟨mi, hmi, List.mem_append_left _ hmic⟩
    | BatchEvent.store j =>
      by_cases hp : j ∈ st.pending
      · cases hmj : batchMid mids j with
        | none =>
          rw [runBatch_store_pending_none _ _ _ _ hmj hp] at hx ⊢
          exact ih st hpok x hx
        | some m2 =>
          rw [runBatch_store_pending _ _ _ _ hmj hp] at hx ⊢
          rcases ih { st with cache := st.cache ++ [m2] } hpok x hx with hin | hcalls
          · rcases List.mem_append.mp hin with hold | hnew
            · exact Or.inl hold
            · obtain ⟨mi, hmi, hmic⟩ := hpok j hp
              rw [hmj] at hmi
              injection hmi with hmi
              right
              have hx2 : x = m2 := List.mem_singleton.mp hnew
              have hxc : x ∈ st.calls := by rw [hx2, hmi]; exact hmic
              exact runBatch_calls_mem mids fetchOk es _ hxc
          · exact Or.inr hcalls
      · rw [runBatch_store_skip _ _ _ _ hp] at hx ⊢
        exact ih st hpok x hx

/-- Under a valid schedule, the number of `m`-checks is the number of batch
items whose master id is `m`. -/
theorem checksForM_of_valid (mids : List (Option Int)) (m : Int)
    {es : List BatchEvent} (hv : validSchedule mids.length es) :
    checksForM mids m es = mids.countP (fun o => decide (o = some m)) := by
  have hgen : ∀ (l : List (Option Int)),
      ((List.range l.length).filter fun i =>
        decide (batchMid l i = some m)).length =
      l.countP (fun o => decide (o = some m)) := by
    intro l
    induction l with
    | nil => simp
    | cons o rest ih =>
      rw [List.length_cons, List.range_succ_eq_map, List.filter_cons,
        List.countP_cons]
      have hsucc : ((List.range rest.length).map Nat.succ).filter
          (fun i => decide (batchMid (o :: rest) i = some m)) =
          ((List.range rest.length).filter
            (fun i => decide (batchMid rest i = some m))).map Nat.succ := by
        rw [List.filter_map]
        apply congrArg
        apply List.filter_congr
        intro i _
        rfl
      by_cases hcond : decide (batchMid (o :: rest) 0 = some m) = true
      · rw [if_pos hcond, if_pos (show decide (o = some m) = true from hcond)]
        rw [List.length_cons, hsucc, List.length_map, ih]
      · rw [if_neg hcond, if_neg (show ¬decide (o = some m) = true from hcond)]
        rw [hsucc, List.length_map, ih]
        omega
  have hperm := hv.1
  unfold checksForM
  rw [(hperm.filter _).length_eq, List.filter_append]
  have hstore :
      (((List.range mids.length).map BatchEvent.store).filter fun e =>
        match e with
        | BatchEvent.check i => decide (batchMid mids i = some m)
        | BatchEvent.store _ => false) = [] := by
    rw [List.filter_eq_nil_iff]
    intro a ha
    obtain ⟨i, _, rfl⟩ := List.mem_map.mp ha
    simp
  rw [hstore, List.append_nil, List.filter_map, List.length_map]
  have hpred : ((List.range mids.length).filter
      ((fun e =>
        match e with
        | BatchEvent.check i => decide (batchMid mids i = some m)
        | BatchEvent.store _ => false) ∘ BatchEvent.check)) =
      ((List.range mids.length).filter
        (fun i => decide (batchMid mids i = some m))) := by
    apply List.filter_congr
    intro i _
    rfl
  rw [hpred]
  exact hgen mids

/-- Chunking partitions the input. -/
theorem chunksAux_flatten {α : Type} (n : Nat) (hn : 0 < n) :
    ∀ (fuel : Nat) (l : List α), l.length ≤ fuel →
      (chunksAux n fuel l).flatten = l := by
  intro fuel
  induction fuel with
  | zero =>
    intro l hl
    have : l = [] := List.length_eq_zero.mp (Nat.le_zero.mp hl)
    subst this
    rfl
  | succ fuel ih =>
    intro l hl
    match l with
    | [] => rfl
    | c :: cs =>
      show (List.take n (c :: cs) :: chunksAux n fuel (List.drop n (c :: cs))).flatten
        = c :: cs
      rw [List.flatten_cons, ih (List.drop n (c :: cs)) ?_,
        List.take_append_drop]
      rw [List.length_drop]
      simp only [List.length_cons] at hl ⊢
      omega

/-- Chunking partitions the input. -/
theorem chunksOf_flatten {α : Type} (n : Nat) (hn : 0 < n) (l : List α) :
    (chunksOf n l).flatten = l :=
  chunksAux_flatten n hn l.length l le_rfl

/-- Once a master id is cached, later batches add no call for it and it
stays cached. -/
theorem runBatches_cached (fetchOk : Int → Bool) {m : Int} :
    ∀ (bs : List (List (Option Int))) (ess : List (List BatchEvent))
      (cache calls : List Int), m ∈ cache →
      (runBatches fetchOk bs ess (cache, calls)).2.count m = calls.count m ∧
      m ∈ (runBatches fetchOk bs ess (cache, calls)).1 := by
  intro bs
  induction bs with
  | nil => intro ess cache calls h; exact ⟨rfl, h⟩
  | cons b bs ih =>
    intro ess cache calls h
    match ess with
    | [] => exact ⟨rfl, h⟩
    | es :: ess =>
      show (runBatches fetchOk bs ess (_, _)).2.count m = _ ∧
        m ∈ (runBatches fetchOk bs ess (_, _)).1
      have hc := runBatch_cache_mono b fetchOk es
        { cache := cache, pending := [], calls := calls } h
      obtain ⟨h1, h2⟩ := ih ess _ _ hc
      refine ⟨?_, h2⟩
      rw [h1]
      exact runBatch_no_call_if_cached b fetchOk es _ h

/-- A batch whose items never reference `m` neither calls for `m` nor puts
it into the dedup map. -/
theorem runBatch_not_referenced (b : List (Option Int)) (fetchOk : Int → Bool)
    {m : Int} (es : List BatchEvent) (cache calls : List Int)
    (hnoref : (some m) ∉ b) (hcache : m ∉ cache) (hcalls : m ∉ calls) :
    m ∉ (runBatchEvents b fetchOk es
        { cache := cache, pending := [], calls := calls }).cache ∧
    m ∉ (runBatchEvents b fetchOk es
        { cache := cache, pending := [], calls := calls }).calls := by
  have hchecks : checksForM b m es = 0 := by
    unfold checksForM
    rw [List.filter_eq_nil_iff.mpr, List.length_nil]
    intro e _
    match e with
    | BatchEvent.check i =>
      simp only [decide_eq_true_eq]
      intro habs
      unfold batchMid at habs
      match hq : b.get? i with
      | some v =>
        rw [hq] at habs
        simp only [Option.getD_some] at habs
        exact hnoref (habs ▸ List.get?_mem hq)
      | none => rw [hq] at habs; simp at habs
    | BatchEvent.store _ => simp
  have hle := runBatch_count_le b fetchOk (m := m) es
    { cache := cache, pending := [], calls := calls }
  rw [hchecks] at hle
  have hc0 : calls.count m = 0 := List.count_eq_zero.mpr hcalls
  rw [hc0] at hle
  have hcalls' : m ∉ (runBatchEvents b fetchOk es
      { cache := cache, pending := [], calls := calls }).calls := by
    intro habs
    have := List.count_pos_iff.mpr habs
    omega
  refine ⟨?_, hcalls'⟩
  intro habs
  rcases runBatch_cache_from_calls b fetchOk es
      { cache := cache, pending := [], calls := calls }
      (by intro i hi; cases hi) m habs with h1 | h2
  · exact hcache h1
  · exact hcalls' h2

/-- Main cross-batch argument: with valid schedules, a successful fetch
for `m`, at most one reference to `m` per batch and some batch referencing
`m`, the whole run calls `getMasterRelease m` exactly once. -/
theorem runBatches_exactly_once (fetchOk : Int → Bool) {m : Int}
    (hfOk : fetchOk m = true) :
    ∀ (bs : List (List (Option Int))) (ess : List (List BatchEvent)),
      List.Forall₂ (fun (b : List (Option Int)) es => validSchedule b.length es)
        bs ess →
      (∀ b ∈ bs, b.countP (fun o => decide (o = some m)) ≤ 1) →
      ∀ (cache calls : List Int), m ∉ cache → m ∉ calls →
      (∃ b ∈ bs, (some m) ∈ b) →
      (runBatches fetchOk bs ess (cache, calls)).2.count m = 1 := by
  intro bs ess hforall
  induction hforall with
  | nil =>
    intro _ cache calls _ _ href
    obtain ⟨b, hb, _⟩ := href
    exact absurd hb (List.not_mem_nil b)
  | @cons b es bs ess hvalid hrest ih =>
    intro hone cache calls hcache hcalls href
    have hone' : ∀ b2 ∈ bs, b2.countP (fun o => decide (o = some m)) ≤ 1 :=
      fun b2 hb2 => hone b2 (List.mem_cons_of_mem b hb2)
    show (runBatches fetchOk bs ess
      ((runBatchEvents b fetchOk es
          { cache := cache, pending := [], calls := calls }).cache,
        (runBatchEvents b fetchOk es
          { cache := cache, pending := [], calls := calls }).calls)).2.count m = 1
    by_cases hb : (some m) ∈ b
    · -- the first batch referencing m: it fetches m exactly once
      obtain ⟨idx, hidx⟩ := List.get?_of_mem hb
      have hidxlt : idx < b.length := by
        rcases List.get?_eq_some.mp hidx with ⟨hlt, _⟩
        exact hlt
      have hmid : batchMid b idx = some m := by
        unfold batchMid
        rw [hidx]
        rfl
      have hsub := hvalid.2 idx hidxlt
      have hmemcache : m ∈ (runBatchEvents b fetchOk es
          { cache := cache, pending := [], calls := calls }).cache :=
        runBatch_cached_after b fetchOk hfOk es _
          (Or.inr (Or.inl ⟨idx, hmid, hsub⟩))
      have hcount_le : (runBatchEvents b fetchOk es
          { cache := cache, pending := [], calls := calls }).calls.count m ≤ 1 := by
        have hle := runBatch_count_le b fetchOk (m := m) es
          { cache := cache, pending := [], calls := calls }
        rw [checksForM_of_valid b m hvalid] at hle
        replace hle : (runBatchEvents b fetchOk es
            { cache := cache, pending := [], calls := calls }).calls.count m ≤
            calls.count m + b.countP (fun o => decide (o = some m)) := hle
        have hc0 : calls.count m = 0 := List.count_eq_zero.mpr hcalls
        have hone_b := hone b (List.mem_cons_self b bs)
        omega
      have hcount_ge : 1 ≤ (runBatchEvents b fetchOk es
          { cache := cache, pending := [], calls := calls }).calls.count m := by
        rcases runBatch_cache_from_calls b fetchOk es
            { cache := cache, pending := [], calls := calls }
            (by intro i hi; cases hi) m hmemcache with h1 | h2
        · exact absurd h1 hcache
        · exact List.count_pos_iff.mpr h2
      have hcount1 : (runBatchEvents b fetchOk es
          { cache := cache, pending := [], calls := calls }).calls.count m = 1 := by
        omega
      rw [(runBatches_cached fetchOk bs ess _ _ hmemcache).1]
      exact hcount1
    · -- not referenced yet: the batch is inert for m
      obtain ⟨hcache', hcalls'⟩ :=
        runBatch_not_referenced b fetchOk es cache calls hb hcache hcalls
      refine ih hone' _ _ hcache' hcalls' ?_
      obtain ⟨b2, hb2, hmb2⟩ := href
      rcases List.mem_cons.mp hb2 with rfl | hb2'
      · exact absurd hmb2 hb
      · exact ⟨b2, hb2', hmb2⟩

/-- **C6 (amended).** Under any valid `Promise.all` interleaving of every
batch, if `getMasterRelease m` succeeds and no two releases *within the
same batch of 10* share the master identifier `m`, then for `m` referenced
by at least one release the master-fetch function is invoked exactly once
during the run: the first referencing release fetches it and every later
batch is served from the per-run dedup map.  (Within a single batch the
map cannot give this guarantee — see the counterexample.) -/
theorem C6_master_fetched_once (releases : List DiscogsRelease)
    (scheds : List (List BatchEvent)) (fetchOk : Int → Bool) (m : Int)
    (hsched : List.Forall₂
      (fun (b : List DiscogsRelease) es => validSchedule b.length es)
      (chunksOf 10 releases) scheds)
    (hfOk : fetchOk m = true)
    (href : ∃ r ∈ releases, truthyMasterId r = some m)
    (hone : ∀ b ∈ chunksOf 10 releases,
      (b.map truthyMasterId).countP (fun o => decide (o = some m)) ≤ 1) :
    (enrichMasterCalls releases scheds fetchOk).count m = 1 := by
  unfold enrichMasterCalls
  have hmap : ∀ (cs : List (List DiscogsRelease)) (ss : List (List BatchEvent)),
      List.Forall₂ (fun b es => validSchedule b.length es) cs ss →
      List.Forall₂ (fun (b : List (Option Int)) es => validSchedule b.length es)
        (cs.map (·.map truthyMasterId)) ss := by
    intro cs ss h
    induction h with
    | nil => exact List.Forall₂.nil
    | cons h _ ih =>
      refine List.Forall₂.cons ?_ ih
      simpa using h
  have hsched' := hmap _ _ hsched
  have hone' : ∀ mb ∈ (chunksOf 10 releases).map (·.map truthyMasterId),
      mb.countP (fun o => decide (o = some m)) ≤ 1 := by
    intro mb hmb
    obtain ⟨b, hb, rfl⟩ := List.mem_map.mp hmb
    exact hone b hb
  have href' : ∃ mb ∈ (chunksOf 10 releases).map (·.map truthyMasterId),
      (some m) ∈ mb := by
    obtain ⟨r, hr, hrm⟩ := href
    have hrj : r ∈ (chunksOf 10 releases).flatten := by
      rw [chunksOf_flatten 10 (by omega) releases]
      exact hr
    obtain ⟨b, hb, hrb⟩ := List.mem_flatten.mp hrj
    exact ⟨b.map truthyMasterId, List.mem_map_of_mem _ hb,
      hrm ▸ List.mem_map_of_mem truthyMasterId hrb⟩
  exact runBatches_exactly_once fetchOk hfOk _ scheds hsched' hone' [] []
    (List.not_mem_nil m) (List.not_mem_nil m) href'

/-- A release referencing master 5. -/
def cRelM5 : DiscogsRelease := { cRel with master_id := some 5 }

/-- A release referencing master 6. -/
def cRelM6 : DiscogsRelease := { cRel with master_id := some 6 }

/-- **C6 (counterexample).** Two releases sharing master 5 inside one batch
of 10, under the valid interleaving in which both dedup-map checks happen
before either fetch resolves (all of `Promise.all` starts before any
response arrives): `getMasterRelease` is invoked twice for master 5, not
exactly once as claimed. -/
theorem C6_counterexample :
    validSchedule 2 [.check 0, .check 1, .store 0, .store 1] ∧
    enrichMasterCalls [cRelM5, cRelM5]
        [[.check 0, .check 1, .store 0, .store 1]] (fun _ => true) = [5, 5] ∧
    (enrichMasterCalls [cRelM5, cRelM5]
        [[.check 0, .check 1, .store 0, .store 1]] (fun _ => true)).count 5 = 2 := by
  refine ⟨by decide, rfl, rfl⟩

/-- Witness for the amended C6: releases in different batches sharing
master 5 (11 releases, the first and last share it) fetch it once. -/
theorem C6_master_fetched_once_witness :
    (enrichMasterCalls
        (cRelM5 :: ((List.range 9).map (fun _ => cRelM6) ++ [cRelM5]))
        [(List.range 10).map BatchEvent.check ++
            (List.range 10).map BatchEvent.store,
          [.check 0, .store 0]]
        (fun _ => true)).count 5 = 1 := by
  refine C6_master_fetched_once _ _ _ 5 ?_ rfl ?_ ?_
  · refine List.Forall₂.cons ?_ (List.Forall₂.cons ?_ List.Forall₂.nil)
    · show validSchedule
        (List.length (List.take 10 (cRelM5 :: ((List.range 9).map (fun _ => cRelM6) ++ [cRelM5]))))
        ((List.range 10).map BatchEvent.check ++ (List.range 10).map BatchEvent.store)
      decide
    · decide
  · exact ⟨cRelM5, List.mem_cons_self _ _, rfl⟩
  · decide

end AnalogVibes
